import Mathlib

/-!
# Single-chat message API of the Tencent IM client (`private/api.go`)

A shallow embedding of the six operations of `private/api.go` and of the
pagination loop `PullMessages`, followed by the properties proved about them.

Conventions of the embedding

* Go integers are `Int` (`uint32` is a `Nat` reduced modulo `2^32`); no
  operation of the file does arithmetic on them.
* A nil-able Go value (pointer, `error`, slice that may be left unset) is an
  `Option`.
* The transport `core.Client` is a deterministic state machine over an
  arbitrary state type `σ`; every `Post` call is recorded, with its outcome,
  in the `posts` log of the `World`.
* `go fn(ret)` is recorded as a dispatch in the `spawned` log of the `World`;
  what the callback does concurrently is outside the embedding.
* The loop of `PullMessages` takes a fuel argument bounding the number of
  iterations; `Status.running` is the answer of a run that used it up.
-/

namespace TencentIM

/-! ## Constants -/

def serviceMessage : String := "openim"
def commandSendMsg : String := "sendmsg"
def commandBatchSendMsg : String := "batchsendmsg"
def commandImportMsg : String := "importmsg"
def commandGetRoamMsg : String := "admin_getroammsg"
def commandWithdrawMsg : String := "admin_msgwithdraw"
def commandSetMsgRead : String := "admin_set_msg_read"
def commandGetUnreadMsgNum : String := "get_c2c_unread_msg_num"

/-! ## Data model

The struct declarations live in files of the package that are outside the
source tree (`types.go`, `message.go`, package `types`); each structure below
has the fields `api.go` reads or writes. -/

/-- A Go `error` value. -/
structure Error where
  msg : String
deriving DecidableEq, Repr

/-- One body segment (`types.MsgBody`): a type tag and a content payload that
`api.go` only copies. -/
structure MsgBody where
  MsgType : String
  MsgContent : String
deriving DecidableEq, Repr

/-- Offline push settings (`types.OfflinePushInfo`), only copied by `api.go`. -/
structure OfflinePushInfo where
  raw : String
deriving DecidableEq, Repr

/-- The custom data of a message, an `interface{}` in the source. -/
structure CustomData where
  raw : String
deriving DecidableEq, Repr

/-- Modelled from the spec: `conv.String` of package `internal/conv` is outside
the source tree; the spec says that custom opaque data is serialized to its
string wire form. The embedding keeps custom data as that wire form. -/
def conv.String (d : CustomData) : String := d.raw

/-- A Go `map[string]bool` used as a set: its keys, without repetition. -/
structure StringSet where
  keys : List String
  nodup : keys.Nodup

/-- The value `len(m)` of a map. -/
def StringSet.len (s : StringSet) : Nat := s.keys.length

/-- The message value object (`Message` of `message.go`). -/
structure Message where
  fromUserId : String
  toUserIds : List String
  lifeTime : Int
  timestamp : Int
  offlinePushInfo : Option OfflinePushInfo
  customData : CustomData
  seq : Nat
  isSyncOtherMachine : Bool
  sendControls : StringSet
  forbidCallbacks : StringSet
  body : List MsgBody

structure sendMessageReq where
  FromUserId : String
  ToUserId : String
  MsgLifeTime : Int
  MsgTimeStamp : Int
  OfflinePushInfo : Option OfflinePushInfo
  CustomData : String
  MsgSeq : Nat
  MsgBody : List MsgBody
  MsgRandom : Nat
  SyncOtherMachine : Int
  SendMsgControl : Option (List String)
  ForbidCallbackControl : Option (List String)
deriving DecidableEq, Repr

structure importMessageReq where
  FromUserId : String
  ToUserId : String
  MsgTimeStamp : Int
  CustomData : String
  MsgSeq : Nat
  MsgBody : List MsgBody
  MsgRandom : Nat
  SyncFromOldSystem : Int
deriving DecidableEq, Repr

structure FetchMessagesArg where
  FromUserId : String
  ToUserId : String
  MaxLimited : Int
  MinTime : Int
  MaxTime : Int
  LastMsgKey : String
deriving DecidableEq, Repr

structure PullMessagesArg where
  FromUserId : String
  ToUserId : String
  MaxLimited : Int
  MinTime : Int
  MaxTime : Int
deriving DecidableEq, Repr

structure revokeMessageReq where
  FromUserId : String
  ToUserId : String
  MsgKey : String
deriving DecidableEq, Repr

structure setMessageReadReq where
  UserId : String
  PeerUserId : String
deriving DecidableEq, Repr

structure getUnreadMessageNumReq where
  UserId : String
  PeerUserIds : Option (List String)
deriving DecidableEq, Repr

/-- One message of a history page; `api.go` only copies the list. -/
structure MessageItem where
  MsgKey : String
  MsgTimeStamp : Int
  MsgBody : List MsgBody
deriving DecidableEq, Repr

structure sendMessageResp where
  MsgTime : Int
  MsgKey : String
deriving DecidableEq, Repr

/-- The response of the commands without a payload (`types.ActionBaseResp`). -/
structure ActionBaseResp where
  ActionStatus : String
  ErrorInfo : String
  ErrorCode : Int
deriving DecidableEq, Repr

structure fetchMessagesResp where
  Complete : Int
  MsgCount : Int
  LastMsgTime : Int
  LastMsgKey : String
  MsgList : List MessageItem
deriving DecidableEq, Repr

/-- One per-peer unread count of the unread-count response. -/
structure UnreadMessageItem where
  UserId : String
  UnreadMsgNum : Int
deriving DecidableEq, Repr

/-- One per-peer error of the unread-count response. -/
structure UnreadMessageError where
  UserId : String
  ErrorCode : Int
deriving DecidableEq, Repr

structure getUnreadMessageNumResp where
  AllUnreadMsgNum : Int
  PeerUnreadMsgNums : List UnreadMessageItem
  PeerErrors : List UnreadMessageError
deriving DecidableEq, Repr

structure SendMessageRet where
  MsgKey : String
  MsgTime : Int
deriving DecidableEq, Repr

structure FetchMessagesRet where
  LastMsgKey : String
  LastMsgTime : Int
  MsgCount : Int
  MsgList : List MessageItem
  IsOver : Bool
deriving DecidableEq, Repr

/-- A Go `map[string]int`: the entries, one per key. -/
abbrev IntMap := List (String × Int)

/-- The assignment `m[k] = v`: overwrites the entry of `k`, or adds one. -/
def IntMap.set : IntMap → String → Int → IntMap
  | [], k, v => [(k, v)]
  | (k', v') :: rest, k, v =>
    if k' = k then (k, v) :: rest else (k', v') :: IntMap.set rest k v

/-- The lookup `m[k]`, `none` when `k` is not a key. -/
def IntMap.get? : IntMap → String → Option Int
  | [], _ => none
  | (k', v') :: rest, k => if k' = k then some v' else IntMap.get? rest k

/-- The keys of a map. -/
def IntMap.keys (m : IntMap) : List String := m.map Prod.fst

structure UnreadMessageRet where
  Total : Int
  UnreadList : Option IntMap
  ErrorList : List UnreadMessageError
deriving DecidableEq, Repr

/-! ## The transport -/

/-- The request value handed to `Post` (an `interface{}` in the source). -/
inductive Request where
  | sendMessage (r : sendMessageReq)
  | importMessage (r : importMessageReq)
  | fetchMessages (r : FetchMessagesArg)
  | revokeMessage (r : revokeMessageReq)
  | setMessageRead (r : setMessageReadReq)
  | getUnreadMessageNum (r : getUnreadMessageNumReq)
deriving DecidableEq, Repr

/-- The struct type of the response value handed to `Post`. -/
inductive RespKind where
  | sendMessageResp
  | actionBaseResp
  | fetchMessagesResp
  | getUnreadMessageNumResp
deriving DecidableEq, Repr

/-- The Lean type of a response value of the given struct type. -/
@[reducible] def RespKind.T : RespKind → Type
  | .sendMessageResp => TencentIM.sendMessageResp
  | .actionBaseResp => TencentIM.ActionBaseResp
  | .fetchMessagesResp => TencentIM.fetchMessagesResp
  | .getUnreadMessageNumResp => TencentIM.getUnreadMessageNumResp

/-- What a `Post` call gives back: the filled response value, or an error. -/
inductive Reply (α : Type) where
  | ok (resp : α)
  | error (err : Error)
deriving DecidableEq, Repr

/-- A response value of any of the four struct types, as kept in the log. -/
inductive Response where
  | sendMessage (r : sendMessageResp)
  | action (r : ActionBaseResp)
  | fetchMessages (r : fetchMessagesResp)
  | getUnreadMessageNum (r : getUnreadMessageNumResp)
deriving DecidableEq, Repr

/-- A response value with its struct type forgotten. -/
def RespKind.wrap : (ρ : RespKind) → ρ.T → Response
  | .sendMessageResp, r => .sendMessage r
  | .actionBaseResp, r => .action r
  | .fetchMessagesResp, r => .fetchMessages r
  | .getUnreadMessageNumResp, r => .getUnreadMessageNum r

/-- The transport collaborator `core.Client`: `Post service command req resp`
on a transport in state `s` fills a response value of type `ρ` or fails, and
leaves the transport in a new state. -/
structure Client (σ : Type) where
  Post : String → String → Request → (ρ : RespKind) → σ → Reply ρ.T × σ

/-- The receiver of the operations (`type api struct { client core.Client }`). -/
structure api (σ : Type) where
  client : Client σ

/-- One `Post` call as observed by a transport spy. -/
structure PostRecord where
  service : String
  command : String
  req : Request
  result : Reply Response
deriving DecidableEq, Repr

/-- The sources of nondeterminism of the Go runtime: the values drawn from the
global `math/rand` source and the order in which `range` visits the keys of a
map (some permutation of the keys, possibly another one at each loop). -/
structure Runtime where
  randUint32 : Nat → Nat
  rangeOrder : Nat → List String → List String
  rangeOrder_perm : ∀ i l, (rangeOrder i l).Perm l

/-- Everything an operation can change or observe outside its arguments. -/
structure World (σ : Type) where
  client : σ
  posts : List PostRecord
  spawned : List FetchMessagesRet
  draws : Nat
  ranges : Nat

/-- A reply as the log keeps it, with the struct type of the response forgotten. -/
def RespKind.logged (ρ : RespKind) : Reply ρ.T → Reply Response
  | .ok resp => .ok (ρ.wrap resp)
  | .error err => .error err

/-- The call `a.client.Post(service, command, req, resp)` of an operation: the
transport answers in its current state and the call is recorded in the log. -/
def api.clientPost {σ : Type} (a : api σ) (service command : String) (req : Request)
    (ρ : RespKind) (w : World σ) : Reply ρ.T × World σ :=
  match a.client.Post service command req ρ w.client with
  | (reply, s) =>
    (reply, { w with client := s,
                     posts := w.posts ++ [⟨service, command, req, ρ.logged reply⟩] })

/-- The call `rand.Uint32()`. -/
def randUint32 {σ : Type} (rt : Runtime) (w : World σ) : Nat × World σ :=
  (rt.randUint32 w.draws % 2 ^ 32, { w with draws := w.draws + 1 })

/-- The loop `for k := range m { out = append(out, k) }` over a set, started
from the empty slice. -/
def rangeAppend {σ : Type} (rt : Runtime) (m : StringSet) (w : World σ) :
    List String × World σ :=
  ((rt.rangeOrder w.ranges m.keys).foldl (fun out k => out ++ [k]) [],
   { w with ranges := w.ranges + 1 })

/-- The statement `go fn(ret)`: the callback is dispatched on the page. -/
def goFn {σ : Type} (ret : FetchMessagesRet) (w : World σ) : World σ :=
  { w with spawned := w.spawned ++ [ret] }

/-! ## Validation -/

/-- The error of a message without recipient. -/
def errNotSetMsgReceiver : Error := ⟨"message receiver is not set"⟩

/-- The error of a message without body. -/
def errNotSetMsgContent : Error := ⟨"message content is not set"⟩

/-- Modelled from the spec: `Message.GetError` is defined in `message.go`,
outside the source tree. The spec's validation rule: it fails with a validation
error if no recipient is set, or if the body segment sequence is empty; the
spec does not name the error values, the two above stand for them. -/
def Message.GetError (m : Message) : Option Error :=
  if m.toUserIds = [] then some errNotSetMsgReceiver
  else if m.body = [] then some errNotSetMsgContent
  else none

/-! ## The operations -/

variable {σ : Type}

/-- The result pair of `SendMessage`. -/
structure SendMessageResult where
  ret : Option SendMessageRet
  err : Option Error
deriving DecidableEq, Repr

/-- The operation `SendMessage`; `none` is the run-time panic of indexing an
empty recipient list. -/
def SendMessage (rt : Runtime) (a : api σ) (message : Message) (w : World σ) :
    Option (SendMessageResult × World σ) :=
  match message.GetError with
  | some err => some (⟨none, some err⟩, w)
  | none =>
    match message.toUserIds with
    | [] => none
    | toUserId :: _ =>
      let (msgRandom, w) := randUint32 rt w
      let syncOtherMachine : Int := if message.isSyncOtherMachine then 1 else 2
      let (sendMsgControl, w) :=
        if message.sendControls.len > 0 then
          let (out, w) := rangeAppend rt message.sendControls w
          (some out, w)
        else (none, w)
      let (forbidCallbackControl, w) :=
        if message.forbidCallbacks.len > 0 then
          let (out, w) := rangeAppend rt message.forbidCallbacks w
          (some out, w)
        else (none, w)
      let msgBody := message.body.foldl (fun out body => out ++ [body]) []
      let req : sendMessageReq :=
        { FromUserId := message.fromUserId
          ToUserId := toUserId
          MsgLifeTime := message.lifeTime
          MsgTimeStamp := message.timestamp
          OfflinePushInfo := message.offlinePushInfo
          CustomData := conv.String message.customData
          MsgSeq := message.seq
          MsgBody := msgBody
          MsgRandom := msgRandom
          SyncOtherMachine := syncOtherMachine
          SendMsgControl := sendMsgControl
          ForbidCallbackControl := forbidCallbackControl }
      match a.clientPost serviceMessage commandSendMsg (.sendMessage req) .sendMessageResp w with
      | (.error err, w) => some (⟨none, some err⟩, w)
      | (.ok resp, w) =>
        some (⟨some { MsgKey := resp.MsgKey, MsgTime := resp.MsgTime }, none⟩, w)

/-- The operation `ImportMessage`; `none` is the run-time panic of indexing an
empty recipient list. -/
def ImportMessage (rt : Runtime) (a : api σ) (message : Message) (w : World σ) :
    Option (Option Error × World σ) :=
  match message.GetError with
  | some err => some (some err, w)
  | none =>
    match message.toUserIds with
    | [] => none
    | toUserId :: _ =>
      let (msgRandom, w) := randUint32 rt w
      let syncFromOldSystem : Int := if message.isSyncOtherMachine then 1 else 2
      let msgBody := message.body.foldl (fun out body => out ++ [body]) []
      let req : importMessageReq :=
        { FromUserId := message.fromUserId
          ToUserId := toUserId
          MsgTimeStamp := message.timestamp
          CustomData := conv.String message.customData
          MsgSeq := message.seq
          MsgBody := msgBody
          MsgRandom := msgRandom
          SyncFromOldSystem := syncFromOldSystem }
      match a.clientPost serviceMessage commandImportMsg (.importMessage req) .actionBaseResp w with
      | (.error err, w) => some (some err, w)
      | (.ok _, w) => some (none, w)

/-- The result pair of `FetchMessages`. -/
structure FetchMessagesResult where
  ret : Option FetchMessagesRet
  err : Option Error
deriving DecidableEq, Repr

/-- The operation `FetchMessages`: one page of history. -/
def FetchMessages (a : api σ) (arg : FetchMessagesArg) (w : World σ) :
    FetchMessagesResult × World σ :=
  match a.clientPost serviceMessage commandGetRoamMsg (.fetchMessages arg) .fetchMessagesResp w with
  | (.error err, w) => (⟨none, some err⟩, w)
  | (.ok resp, w) =>
    let ret : FetchMessagesRet :=
      { LastMsgKey := resp.LastMsgKey
        LastMsgTime := resp.LastMsgTime
        MsgCount := resp.MsgCount
        MsgList := resp.MsgList
        IsOver := false }
    let ret := if resp.Complete = 1 then { ret with IsOver := true } else ret
    (⟨some ret, none⟩, w)

/-- How a run of `PullMessages` stands: still in the loop when the fuel ran
out, returned with its error value, or stopped by a nil dereference. -/
inductive Status where
  | running
  | returned (err : Option Error)
  | panicked
deriving DecidableEq, Repr

/-- The loop condition `ret == nil || !ret.IsOver`. -/
def loopCond : Option FetchMessagesRet → Bool
  | none => true
  | some ret => !ret.IsOver

/-- The loop of `PullMessages`, run for at most `fuel` iterations from the
loop variables `ret` and `req`. -/
def PullMessagesLoop (a : api σ) :
    Nat → Option FetchMessagesRet → FetchMessagesArg → World σ → Status × World σ
  | 0, ret, _, w => if loopCond ret then (.running, w) else (.returned none, w)
  | fuel + 1, ret, req, w =>
    if loopCond ret then
      match FetchMessages a req w with
      | (⟨_, some err⟩, w) => (.returned (some err), w)
      | (⟨none, none⟩, w) => (.panicked, w)
      | (⟨some ret, none⟩, w) =>
        let w := goFn ret w
        let req :=
          if !ret.IsOver then
            { req with LastMsgKey := ret.LastMsgKey, MaxTime := ret.LastMsgTime }
          else req
        PullMessagesLoop a fuel (some ret) req w
    else (.returned none, w)

/-- The operation `PullMessages`, run for at most `fuel` iterations of its loop. -/
def PullMessages (a : api σ) (arg : PullMessagesArg) (fuel : Nat) (w : World σ) :
    Status × World σ :=
  let req : FetchMessagesArg :=
    { FromUserId := arg.FromUserId
      ToUserId := arg.ToUserId
      MaxLimited := arg.MaxLimited
      MinTime := arg.MinTime
      MaxTime := arg.MaxTime
      LastMsgKey := "" }
  PullMessagesLoop a fuel none req w

/-- The operation `RevokeMessage`. -/
def RevokeMessage (a : api σ) (fromUserId toUserId msgKey : String) (w : World σ) :
    Option Error × World σ :=
  let req : revokeMessageReq :=
    { FromUserId := fromUserId, ToUserId := toUserId, MsgKey := msgKey }
  match a.clientPost serviceMessage commandWithdrawMsg (.revokeMessage req) .actionBaseResp w with
  | (.error err, w) => (some err, w)
  | (.ok _, w) => (none, w)

/-- The operation `SetMessageRead`. -/
def SetMessageRead (a : api σ) (userId peerUserId : String) (w : World σ) :
    Option Error × World σ :=
  let req : setMessageReadReq := { UserId := userId, PeerUserId := peerUserId }
  match a.clientPost serviceMessage commandSetMsgRead (.setMessageRead req) .actionBaseResp w with
  | (.error err, w) => (some err, w)
  | (.ok _, w) => (none, w)

/-- The result pair of `GetUnreadMessageNum`. -/
structure UnreadMessageResult where
  ret : Option UnreadMessageRet
  err : Option Error
deriving DecidableEq, Repr

/-- The operation `GetUnreadMessageNum`; `peerUserIds` is the variadic
argument, a list of id lists of which the first is used. -/
def GetUnreadMessageNum (a : api σ) (userId : String) (peerUserIds : List (List String))
    (w : World σ) : UnreadMessageResult × World σ :=
  let req : getUnreadMessageNumReq :=
    { UserId := userId
      PeerUserIds := if peerUserIds.length > 0 then peerUserIds.head? else none }
  match a.clientPost serviceMessage commandGetUnreadMsgNum (.getUnreadMessageNum req)
      .getUnreadMessageNumResp w with
  | (.error err, w) => (⟨none, some err⟩, w)
  | (.ok resp, w) =>
    let unreadList : IntMap :=
      if resp.PeerUnreadMsgNums.length > 0 then
        resp.PeerUnreadMsgNums.foldl (fun m item => m.set item.UserId item.UnreadMsgNum) []
      else []
    (⟨some { Total := resp.AllUnreadMsgNum
             UnreadList := some unreadList
             ErrorList := resp.PeerErrors }, none⟩, w)

/-! ## Vocabulary of the statements -/

/-- The request `SendMessage` builds for a message whose first recipient is
`toUserId`, in a world `w`. -/
def sendMessageReqOf (rt : Runtime) (message : Message) (toUserId : String) (w : World σ) :
    sendMessageReq :=
  { FromUserId := message.fromUserId
    ToUserId := toUserId
    MsgLifeTime := message.lifeTime
    MsgTimeStamp := message.timestamp
    OfflinePushInfo := message.offlinePushInfo
    CustomData := conv.String message.customData
    MsgSeq := message.seq
    MsgBody := message.body
    MsgRandom := rt.randUint32 w.draws % 2 ^ 32
    SyncOtherMachine := if message.isSyncOtherMachine then 1 else 2
    SendMsgControl :=
      if message.sendControls.keys = [] then none
      else some (rt.rangeOrder w.ranges message.sendControls.keys)
    ForbidCallbackControl :=
      if message.forbidCallbacks.keys = [] then none
      else some (rt.rangeOrder
        (if message.sendControls.keys = [] then w.ranges else w.ranges + 1)
        message.forbidCallbacks.keys) }

/-- The request `ImportMessage` builds for a message whose first recipient is
`toUserId`, in a world `w`. -/
def importMessageReqOf (rt : Runtime) (message : Message) (toUserId : String) (w : World σ) :
    importMessageReq :=
  { FromUserId := message.fromUserId
    ToUserId := toUserId
    MsgTimeStamp := message.timestamp
    CustomData := conv.String message.customData
    MsgSeq := message.seq
    MsgBody := message.body
    MsgRandom := rt.randUint32 w.draws % 2 ^ 32
    SyncFromOldSystem := if message.isSyncOtherMachine then 1 else 2 }

/-- Between the worlds `w` and `w'` at most one `Post` call was made; the call,
if any, is recorded with the reply the transport gave to it in its state of
`w`, for a response value of type `ρ`; and when that reply is an error `e`,
`returned e` holds. -/
def AtMostOnePost (a : api σ) (ρ : RespKind) (w w' : World σ) (returned : Error → Prop) :
    Prop :=
  ∃ recs : List PostRecord, w'.posts = w.posts ++ recs ∧ recs.length ≤ 1 ∧
    ∀ rec ∈ recs,
      rec.result = ρ.logged (a.client.Post rec.service rec.command rec.req ρ w.client).1 ∧
      ∀ e, rec.result = .error e → returned e

/-- The transport's answer to one history-fetch request, on a bare transport
state. -/
def Client.fetch (c : Client σ) (req : FetchMessagesArg) (s : σ) :
    Reply fetchMessagesResp × σ :=
  c.Post serviceMessage commandGetRoamMsg (.fetchMessages req) .fetchMessagesResp s

/-- The state of the transport after it has answered the given history-fetch
requests, oldest first. -/
def Client.afterFetches (c : Client σ) : σ → List FetchMessagesArg → σ
  | s, [] => s
  | s, req :: reqs => Client.afterFetches c (c.fetch req s).2 reqs

/-- The page `FetchMessages` returns for a response. -/
def pageOf (resp : fetchMessagesResp) : FetchMessagesRet :=
  { LastMsgKey := resp.LastMsgKey
    LastMsgTime := resp.LastMsgTime
    MsgCount := resp.MsgCount
    MsgList := resp.MsgList
    IsOver := decide (resp.Complete = 1) }

/-- The log record of a history-fetch call. -/
def fetchRecord (req : FetchMessagesArg) (result : Reply fetchMessagesResp) : PostRecord :=
  ⟨serviceMessage, commandGetRoamMsg, .fetchMessages req,
    RespKind.logged .fetchMessagesResp result⟩

/-- The first request of `PullMessages`. -/
def firstRequest (arg : PullMessagesArg) : FetchMessagesArg :=
  { FromUserId := arg.FromUserId
    ToUserId := arg.ToUserId
    MaxLimited := arg.MaxLimited
    MinTime := arg.MinTime
    MaxTime := arg.MaxTime
    LastMsgKey := "" }

/-- Two consecutive records of the log of `PullMessages`: the first is a
history fetch answered with a page, the second is the same request with
`MaxTime` and `LastMsgKey` taken from that page. -/
def Continues (r r' : PostRecord) : Prop :=
  ∃ req resp, r.req = .fetchMessages req ∧ r.result = .ok (.fetchMessages resp) ∧
    r'.req = .fetchMessages
      { req with MaxTime := resp.LastMsgTime, LastMsgKey := resp.LastMsgKey }

/-! ## Concrete transports, messages and worlds -/

/-- A transport stub whose state counts the calls it has answered: a history
fetch is answered with `script s req`, where `s` is the number of earlier
calls; any other call is answered with a zero response. -/
def stubClient (script : Nat → FetchMessagesArg → Reply fetchMessagesResp) : Client Nat where
  Post := fun _ _ req ρ s =>
    match ρ, req with
    | .fetchMessagesResp, .fetchMessages r => (script s r, s + 1)
    | .fetchMessagesResp, _ => (.ok ⟨0, 0, 0, "", []⟩, s + 1)
    | .sendMessageResp, _ => (.ok ⟨0, ""⟩, s + 1)
    | .actionBaseResp, _ => (.ok ⟨"OK", "", 0⟩, s + 1)
    | .getUnreadMessageNumResp, _ => (.ok ⟨0, [], []⟩, s + 1)

/-- A transport that answers the unread-count command with a fixed response and
fails on every other call. -/
def unreadClient (resp : getUnreadMessageNumResp) : Client Nat where
  Post := fun _ _ _ ρ s =>
    match ρ with
    | .getUnreadMessageNumResp => (.ok resp, s + 1)
    | _ => (.error ⟨"unsupported"⟩, s + 1)

/-- A world in which nothing has happened yet. -/
def emptyWorld : World Nat := ⟨0, [], [], 0, 0⟩

/-- A runtime whose random source counts up and whose `range` visits the keys
of a map in reverse order. -/
def reversingRuntime : Runtime where
  randUint32 := fun i => 4294967296 + i
  rangeOrder := fun _ l => l.reverse
  rangeOrder_perm := fun _ l => List.reverse_perm l

/-- A page that is not final, with the given last time and key. -/
def morePage (lastTime : Int) (lastKey : String) : fetchMessagesResp :=
  { Complete := 0, MsgCount := 1, LastMsgTime := lastTime, LastMsgKey := lastKey,
    MsgList := [] }

/-- A final page, with the given last time and key. -/
def finalPage (lastTime : Int) (lastKey : String) : fetchMessagesResp :=
  { Complete := 1, MsgCount := 1, LastMsgTime := lastTime, LastMsgKey := lastKey,
    MsgList := [] }

/-- Three pages with decreasing last times, the third one final. -/
def threePages : Nat → FetchMessagesArg → Reply fetchMessagesResp
  | 0, _ => .ok (morePage 50 "k1")
  | 1, _ => .ok (morePage 30 "k2")
  | _, _ => .ok (finalPage 10 "k3")

/-- A page, and then a failure. -/
def pageThenError : Nat → FetchMessagesArg → Reply fetchMessagesResp
  | 0, _ => .ok (morePage 50 "k1")
  | _, _ => .error ⟨"connection reset"⟩

/-- A provider that never advances: every answer is a page that is not final
and whose last time is the upper time bound of the request. -/
def stuckPages : Nat → FetchMessagesArg → Reply fetchMessagesResp
  | _, req => .ok (morePage req.MaxTime "k")

/-- A provider whose pages are never final and go one second back each. -/
def endlessPages : Nat → FetchMessagesArg → Reply fetchMessagesResp
  | _, req => .ok (morePage (req.MaxTime - 1) "k")

/-- The query of the examples. -/
def sampleArg : PullMessagesArg :=
  { FromUserId := "alice", ToUserId := "bob", MaxLimited := 100, MinTime := 0,
    MaxTime := 100 }

/-- A message without recipient. -/
def noRecipientMessage : Message :=
  { fromUserId := "alice", toUserIds := [], lifeTime := 0, timestamp := 0,
    offlinePushInfo := none, customData := ⟨""⟩, seq := 0, isSyncOtherMachine := true,
    sendControls := ⟨[], List.nodup_nil⟩, forbidCallbacks := ⟨[], List.nodup_nil⟩,
    body := [⟨"TIMTextElem", "hello"⟩] }

/-- A valid message that is synchronized to the sender's other devices. -/
def syncedMessage : Message :=
  { fromUserId := "alice", toUserIds := ["bob"], lifeTime := 0, timestamp := 0,
    offlinePushInfo := none, customData := ⟨""⟩, seq := 1, isSyncOtherMachine := true,
    sendControls := ⟨[], List.nodup_nil⟩, forbidCallbacks := ⟨[], List.nodup_nil⟩,
    body := [⟨"TIMTextElem", "hello"⟩] }

/-- A valid message with two send-control tokens and one forbid-callback token. -/
def controlledMessage : Message :=
  { fromUserId := "alice", toUserIds := ["bob"], lifeTime := 0, timestamp := 0,
    offlinePushInfo := none, customData := ⟨""⟩, seq := 1, isSyncOtherMachine := false,
    sendControls := ⟨["NoUnread", "NoLastMsg"], by decide⟩,
    forbidCallbacks := ⟨["ForbidBeforeSendMsgCallback"], by decide⟩,
    body := [⟨"TIMTextElem", "hello"⟩] }

/-- An unread-count response with a repeated peer and a peer in error. -/
def sampleUnread : getUnreadMessageNumResp :=
  { AllUnreadMsgNum := 7,
    PeerUnreadMsgNums := [⟨"a", 3⟩, ⟨"a", 5⟩],
    PeerErrors := [⟨"b", 70107⟩] }

/-! ## Auxiliary facts -/

theorem foldl_append_singleton {α : Type} (l init : List α) :
    l.foldl (fun out x => out ++ [x]) init = init ++ l := by
  induction l generalizing init with
  | nil => simp
  | cons x xs ih => simp [List.foldl_cons, ih]

theorem GetError_none_iff (m : Message) :
    m.GetError = none ↔ m.toUserIds ≠ [] ∧ m.body ≠ [] := by
  unfold Message.GetError
  by_cases h1 : m.toUserIds = [] <;> by_cases h2 : m.body = [] <;> simp [h1, h2]

theorem logged_error_iff (ρ : RespKind) (reply : Reply ρ.T) (e : Error) :
    ρ.logged reply = .error e ↔ reply = .error e := by
  cases reply <;> simp [RespKind.logged]

theorem sendMsg_round_trip (a : api σ) (req : sendMessageReq) (w : World σ) :
    ∃ res w',
      (match a.clientPost serviceMessage commandSendMsg (.sendMessage req) .sendMessageResp w with
        | (.error err, w) => some ((⟨none, some err⟩ : SendMessageResult), w)
        | (.ok resp, w) =>
          some (⟨some { MsgKey := resp.MsgKey, MsgTime := resp.MsgTime }, none⟩, w))
        = some (res, w') ∧
      w'.posts = w.posts ++
        [⟨serviceMessage, commandSendMsg, .sendMessage req,
          RespKind.logged .sendMessageResp
            (a.client.Post serviceMessage commandSendMsg (.sendMessage req) .sendMessageResp
              w.client).1⟩] ∧
      (∀ e, (a.client.Post serviceMessage commandSendMsg (.sendMessage req) .sendMessageResp
          w.client).1 = .error e → res = ⟨none, some e⟩) ∧
      (∀ resp, (a.client.Post serviceMessage commandSendMsg (.sendMessage req) .sendMessageResp
          w.client).1 = .ok resp →
        res = ⟨some { MsgKey := resp.MsgKey, MsgTime := resp.MsgTime }, none⟩) := by
  unfold api.clientPost
  rcases a.client.Post serviceMessage commandSendMsg (.sendMessage req) .sendMessageResp
    w.client with ⟨r, s⟩
  cases r with
  | ok resp =>
    refine ⟨_, _, rfl, rfl, ?_, ?_⟩
    · intro e he; cases he
    · intro r hr; cases hr; rfl
  | error err =>
    refine ⟨_, _, rfl, rfl, ?_, ?_⟩
    · intro e he; cases he; rfl
    · intro r hr; cases hr

theorem SendMessage_valid (rt : Runtime) (a : api σ) (m : Message) (w : World σ)
    (h : m.GetError = none) :
    ∃ toUserId rest res w',
      m.toUserIds = toUserId :: rest ∧
      SendMessage rt a m w = some (res, w') ∧
      w'.posts = w.posts ++
        [⟨serviceMessage, commandSendMsg, .sendMessage (sendMessageReqOf rt m toUserId w),
          RespKind.logged .sendMessageResp
            (a.client.Post serviceMessage commandSendMsg
              (.sendMessage (sendMessageReqOf rt m toUserId w)) .sendMessageResp w.client).1⟩] ∧
      (∀ e, (a.client.Post serviceMessage commandSendMsg
          (.sendMessage (sendMessageReqOf rt m toUserId w)) .sendMessageResp w.client).1
            = .error e → res = ⟨none, some e⟩) ∧
      (∀ resp, (a.client.Post serviceMessage commandSendMsg
          (.sendMessage (sendMessageReqOf rt m toUserId w)) .sendMessageResp w.client).1
            = .ok resp →
        res = ⟨some { MsgKey := resp.MsgKey, MsgTime := resp.MsgTime }, none⟩) := by
  have hv := (GetError_none_iff m).1 h
  rcases hto : m.toUserIds with _ | ⟨toUserId, rest⟩
  · exact absurd hto hv.1
  refine ⟨toUserId, rest, ?_⟩
  by_cases hs : m.sendControls.keys = [] <;> by_cases hf : m.forbidCallbacks.keys = []
  all_goals
    simp only [SendMessage, h, hto, randUint32, rangeAppend, StringSet.len,
      foldl_append_singleton, List.nil_append, sendMessageReqOf, hs, hf, List.length_nil,
      gt_iff_lt, lt_self_iff_false, List.length_pos, ne_eq, not_false_eq_true, if_true,
      if_false, true_and]
  all_goals exact sendMsg_round_trip a _ _

theorem importMsg_round_trip (a : api σ) (req : importMessageReq) (w : World σ) :
    ∃ res w',
      (match a.clientPost serviceMessage commandImportMsg (.importMessage req) .actionBaseResp w with
        | (.error err, w) => some (some err, w)
        | (.ok _, w) => some (none, w))
        = some (res, w') ∧
      w'.posts = w.posts ++
        [⟨serviceMessage, commandImportMsg, .importMessage req,
          RespKind.logged .actionBaseResp
            (a.client.Post serviceMessage commandImportMsg (.importMessage req) .actionBaseResp
              w.client).1⟩] ∧
      (∀ e, (a.client.Post serviceMessage commandImportMsg (.importMessage req) .actionBaseResp
          w.client).1 = .error e → res = some e) := by
  unfold api.clientPost
  rcases a.client.Post serviceMessage commandImportMsg (.importMessage req) .actionBaseResp
    w.client with ⟨r, s⟩
  cases r with
  | ok resp =>
    refine ⟨_, _, rfl, rfl, ?_⟩
    intro e he; cases he
  | error err =>
    refine ⟨_, _, rfl, rfl, ?_⟩
    intro e he; cases he; rfl

theorem ImportMessage_valid (rt : Runtime) (a : api σ) (m : Message) (w : World σ)
    (h : m.GetError = none) :
    ∃ toUserId rest res w',
      m.toUserIds = toUserId :: rest ∧
      ImportMessage rt a m w = some (res, w') ∧
      w'.posts = w.posts ++
        [⟨serviceMessage, commandImportMsg,
          .importMessage (importMessageReqOf rt m toUserId w),
          RespKind.logged .actionBaseResp
            (a.client.Post serviceMessage commandImportMsg
              (.importMessage (importMessageReqOf rt m toUserId w)) .actionBaseResp
              w.client).1⟩] ∧
      (∀ e, (a.client.Post serviceMessage commandImportMsg
          (.importMessage (importMessageReqOf rt m toUserId w)) .actionBaseResp w.client).1
            = .error e → res = some e) := by
  have hv := (GetError_none_iff m).1 h
  rcases hto : m.toUserIds with _ | ⟨toUserId, rest⟩
  · exact absurd hto hv.1
  refine ⟨toUserId, rest, ?_⟩
  simp only [ImportMessage, h, hto, randUint32, foldl_append_singleton, List.nil_append,
    importMessageReqOf, true_and]
  exact importMsg_round_trip a _ _

/-! ## Validation comes first -/

/-- C4: a message with no recipient or with an empty body makes `SendMessage`
and `ImportMessage` return the validation error of `Message.GetError` with no
result, in a world that is unchanged (no `Post` call, no random draw); with an
empty recipient list the operations return that error, they do not reach the
read of the first recipient. -/
theorem validation_precedes_transport (rt : Runtime) (a : api σ) (m : Message) (w : World σ)
    (h : m.toUserIds = [] ∨ m.body = []) :
    ∃ e, m.GetError = some e ∧
      SendMessage rt a m w = some (⟨none, some e⟩, w) ∧
      ImportMessage rt a m w = some (some e, w) := by
  have hne : m.GetError ≠ none := by
    intro hn
    have hv := (GetError_none_iff m).1 hn
    rcases h with h | h
    · exact hv.1 h
    · exact hv.2 h
  rcases hg : m.GetError with _ | e
  · exact absurd hg hne
  · exact ⟨e, rfl, by simp [SendMessage, hg], by simp [ImportMessage, hg]⟩

/-! ## The wire request of a valid message -/

/-- C5: for a valid message, `SendMessage` posts one request whose
`SyncOtherMachine` is 1 when the sync flag is set and 2 when it is not, and
`ImportMessage` posts one request whose `SyncFromOldSystem` is 1 when the flag
is set and 2 when it is not. -/
theorem sync_flag_on_the_wire (rt : Runtime) (a : api σ) (m : Message) (w : World σ)
    (h : m.GetError = none) :
    (∃ res w' req result,
      SendMessage rt a m w = some (res, w') ∧
      w'.posts = w.posts ++ [⟨serviceMessage, commandSendMsg, .sendMessage req, result⟩] ∧
      (m.isSyncOtherMachine = true → req.SyncOtherMachine = 1) ∧
      (m.isSyncOtherMachine = false → req.SyncOtherMachine = 2) ∧
      (req.SyncOtherMachine = 1 ∨ req.SyncOtherMachine = 2)) ∧
    (∃ res w' req result,
      ImportMessage rt a m w = some (res, w') ∧
      w'.posts = w.posts ++ [⟨serviceMessage, commandImportMsg, .importMessage req, result⟩] ∧
      (m.isSyncOtherMachine = true → req.SyncFromOldSystem = 1) ∧
      (m.isSyncOtherMachine = false → req.SyncFromOldSystem = 2) ∧
      (req.SyncFromOldSystem = 1 ∨ req.SyncFromOldSystem = 2)) := by
  constructor
  · obtain ⟨toId, rest, res, w', _, hrun, hposts, _⟩ := SendMessage_valid rt a m w h
    refine ⟨res, w', _, _, hrun, hposts, ?_, ?_, ?_⟩
    · intro hflag; simp [sendMessageReqOf, hflag]
    · intro hflag; simp [sendMessageReqOf, hflag]
    · cases hflag : m.isSyncOtherMachine <;> simp [sendMessageReqOf, hflag]
  · obtain ⟨toId, rest, res, w', _, hrun, hposts, _⟩ := ImportMessage_valid rt a m w h
    refine ⟨res, w', _, _, hrun, hposts, ?_, ?_, ?_⟩
    · intro hflag; simp [importMessageReqOf, hflag]
    · intro hflag; simp [importMessageReqOf, hflag]
    · cases hflag : m.isSyncOtherMachine <;> simp [importMessageReqOf, hflag]

/-- C6: for a valid message, the request `SendMessage` posts has
`SendMsgControl` unset when the send-control set is empty and otherwise set to
a list that is a permutation of the set's tokens (same length, each token
exactly once, nothing else); the same holds of `ForbidCallbackControl` and the
forbid-callback set. -/
theorem control_sets_on_the_wire (rt : Runtime) (a : api σ) (m : Message) (w : World σ)
    (h : m.GetError = none) :
    ∃ res w' req result,
      SendMessage rt a m w = some (res, w') ∧
      w'.posts = w.posts ++ [⟨serviceMessage, commandSendMsg, .sendMessage req, result⟩] ∧
      (m.sendControls.keys = [] → req.SendMsgControl = none) ∧
      (m.sendControls.keys ≠ [] → ∃ l, req.SendMsgControl = some l ∧
        l.Perm m.sendControls.keys ∧ l.length = m.sendControls.len ∧
        (∀ k, k ∈ l ↔ k ∈ m.sendControls.keys) ∧
        (∀ k ∈ m.sendControls.keys, l.count k = 1)) ∧
      (m.forbidCallbacks.keys = [] → req.ForbidCallbackControl = none) ∧
      (m.forbidCallbacks.keys ≠ [] → ∃ l, req.ForbidCallbackControl = some l ∧
        l.Perm m.forbidCallbacks.keys ∧ l.length = m.forbidCallbacks.len ∧
        (∀ k, k ∈ l ↔ k ∈ m.forbidCallbacks.keys) ∧
        (∀ k ∈ m.forbidCallbacks.keys, l.count k = 1)) := by
  obtain ⟨toId, rest, res, w', _, hrun, hposts, _⟩ := SendMessage_valid rt a m w h
  have key : ∀ (i : Nat) (s : StringSet),
      (rt.rangeOrder i s.keys).Perm s.keys ∧ (rt.rangeOrder i s.keys).length = s.len ∧
      (∀ k, k ∈ rt.rangeOrder i s.keys ↔ k ∈ s.keys) ∧
      (∀ k ∈ s.keys, (rt.rangeOrder i s.keys).count k = 1) := by
    intro i s
    have hp := rt.rangeOrder_perm i s.keys
    refine ⟨hp, hp.length_eq, fun k => hp.mem_iff, fun k hk => ?_⟩
    rw [hp.count_eq]
    exact List.count_eq_one_of_mem s.nodup hk
  refine ⟨res, w', _, _, hrun, hposts, ?_, ?_, ?_, ?_⟩
  · intro he; simp [sendMessageReqOf, he]
  · intro hne
    exact ⟨rt.rangeOrder w.ranges m.sendControls.keys,
      by simp [sendMessageReqOf, hne], key _ _⟩
  · intro he; simp [sendMessageReqOf, he]
  · intro hne
    exact ⟨rt.rangeOrder (if m.sendControls.keys = [] then w.ranges else w.ranges + 1)
      m.forbidCallbacks.keys, by simp [sendMessageReqOf, hne], key _ _⟩


/-! ## One round trip, errors passed through -/

theorem atMostOnePost_nil (a : api σ) (ρ : RespKind) (w : World σ) (returned : Error → Prop) :
    AtMostOnePost a ρ w w returned :=
  ⟨[], by simp, by simp, by simp⟩

theorem atMostOnePost_single (a : api σ) (ρ : RespKind) (w w' : World σ)
    (returned : Error → Prop) (service command : String) (req : Request)
    (hposts : w'.posts = w.posts ++
      [⟨service, command, req, ρ.logged (a.client.Post service command req ρ w.client).1⟩])
    (herr : ∀ e, (a.client.Post service command req ρ w.client).1 = .error e → returned e) :
    AtMostOnePost a ρ w w' returned := by
  refine ⟨_, hposts, by simp, ?_⟩
  intro rec hrec
  rw [List.mem_singleton] at hrec
  subst hrec
  exact ⟨rfl, fun e he => herr e ((logged_error_iff ρ _ e).1 he)⟩

/-- C8: each of `SendMessage`, `ImportMessage`, `FetchMessages`,
`RevokeMessage`, `SetMessageRead` and `GetUnreadMessageNum` makes at most one
`Post` call, and when the transport answers that call with an error `e` the
operation returns `e` itself, with a nil result where it has a result value. -/
theorem single_post_error_passthrough (rt : Runtime) (a : api σ) (w : World σ) :
    (∀ m, ∃ res w', SendMessage rt a m w = some (res, w') ∧
      AtMostOnePost a .sendMessageResp w w' (fun e => res = ⟨none, some e⟩)) ∧
    (∀ m, ∃ err w', ImportMessage rt a m w = some (err, w') ∧
      AtMostOnePost a .actionBaseResp w w' (fun e => err = some e)) ∧
    (∀ arg, AtMostOnePost a .fetchMessagesResp w (FetchMessages a arg w).2
      (fun e => (FetchMessages a arg w).1 = ⟨none, some e⟩)) ∧
    (∀ fromUserId toUserId msgKey,
      AtMostOnePost a .actionBaseResp w (RevokeMessage a fromUserId toUserId msgKey w).2
        (fun e => (RevokeMessage a fromUserId toUserId msgKey w).1 = some e)) ∧
    (∀ userId peerUserId,
      AtMostOnePost a .actionBaseResp w (SetMessageRead a userId peerUserId w).2
        (fun e => (SetMessageRead a userId peerUserId w).1 = some e)) ∧
    (∀ userId peerUserIds,
      AtMostOnePost a .getUnreadMessageNumResp w (GetUnreadMessageNum a userId peerUserIds w).2
        (fun e => (GetUnreadMessageNum a userId peerUserIds w).1 = ⟨none, some e⟩)) := by
  refine ⟨?_, ?_, ?_, ?_, ?_, ?_⟩
  · intro m
    rcases hg : m.GetError with _ | err
    · obtain ⟨toId, rest, res, w', _, hrun, hposts, herr, _⟩ := SendMessage_valid rt a m w hg
      exact ⟨res, w', hrun, atMostOnePost_single a _ w w' _ _ _ _ hposts herr⟩
    · exact ⟨⟨none, some err⟩, w, by simp [SendMessage, hg], atMostOnePost_nil a _ w _⟩
  · intro m
    rcases hg : m.GetError with _ | err
    · obtain ⟨toId, rest, res, w', _, hrun, hposts, herr⟩ := ImportMessage_valid rt a m w hg
      exact ⟨res, w', hrun, atMostOnePost_single a _ w w' _ _ _ _ hposts herr⟩
    · exact ⟨some err, w, by simp [ImportMessage, hg], atMostOnePost_nil a _ w _⟩
  · intro arg
    rcases h : a.client.Post serviceMessage commandGetRoamMsg
      (.fetchMessages arg) .fetchMessagesResp w.client with ⟨r, s⟩
    refine atMostOnePost_single a _ w _ _ serviceMessage commandGetRoamMsg
      (.fetchMessages arg) ?_ ?_
    · cases r <;> simp [FetchMessages, api.clientPost, h]
    · intro e he
      rw [h] at he
      cases he
      simp [FetchMessages, api.clientPost, h]
  · intro fromUserId toUserId msgKey
    rcases h : a.client.Post serviceMessage commandWithdrawMsg
      (.revokeMessage ⟨fromUserId, toUserId, msgKey⟩) .actionBaseResp w.client with ⟨r, s⟩
    refine atMostOnePost_single a _ w _ _ serviceMessage commandWithdrawMsg
      (.revokeMessage ⟨fromUserId, toUserId, msgKey⟩) ?_ ?_
    · cases r <;> simp [RevokeMessage, api.clientPost, h]
    · intro e he
      rw [h] at he
      cases he
      simp [RevokeMessage, api.clientPost, h]
  · intro userId peerUserId
    rcases h : a.client.Post serviceMessage commandSetMsgRead
      (.setMessageRead ⟨userId, peerUserId⟩) .actionBaseResp w.client with ⟨r, s⟩
    refine atMostOnePost_single a _ w _ _ serviceMessage commandSetMsgRead
      (.setMessageRead ⟨userId, peerUserId⟩) ?_ ?_
    · cases r <;> simp [SetMessageRead, api.clientPost, h]
    · intro e he
      rw [h] at he
      cases he
      simp [SetMessageRead, api.clientPost, h]
  · intro userId peerUserIds
    rcases h : a.client.Post serviceMessage commandGetUnreadMsgNum
      (.getUnreadMessageNum
        ⟨userId, if peerUserIds.length > 0 then peerUserIds.head? else none⟩) .getUnreadMessageNumResp w.client with ⟨r, s⟩
    refine atMostOnePost_single a _ w _ _ serviceMessage commandGetUnreadMsgNum
      (.getUnreadMessageNum
        ⟨userId, if peerUserIds.length > 0 then peerUserIds.head? else none⟩) ?_ ?_
    · cases r <;> simp [GetUnreadMessageNum, api.clientPost, h]
    · intro e he
      rw [h] at he
      cases he
      simp [GetUnreadMessageNum, api.clientPost, h]

/-! ## The unread-count result -/

theorem IntMap.get?_set (m : IntMap) (k : String) (v : Int) (k' : String) :
    (m.set k v).get? k' = if k = k' then some v else m.get? k' := by
  induction m with
  | nil => simp [IntMap.set, IntMap.get?]
  | cons kv rest ih =>
    obtain ⟨k₀, v₀⟩ := kv
    by_cases h0 : k₀ = k
    · subst h0
      by_cases h1 : k₀ = k' <;> simp [IntMap.set, IntMap.get?, h1]
    · by_cases h1 : k₀ = k'
      · subst h1
        have h2 : ¬ k = k₀ := fun h => h0 h.symm
        simp [IntMap.set, IntMap.get?, h0, h2]
      · simp [IntMap.set, IntMap.get?, h0, h1, ih]

theorem IntMap.mem_keys_set (m : IntMap) (k : String) (v : Int) (k' : String) :
    k' ∈ (m.set k v).keys ↔ k' = k ∨ k' ∈ m.keys := by
  induction m with
  | nil => simp [IntMap.set, IntMap.keys]
  | cons kv rest ih =>
    obtain ⟨k₀, v₀⟩ := kv
    by_cases h0 : k₀ = k
    · subst h0
      simp [IntMap.set, IntMap.keys]
    · have ih' : k' ∈ List.map Prod.fst (IntMap.set rest k v) ↔
          k' = k ∨ k' ∈ List.map Prod.fst rest := ih
      simp only [IntMap.set, h0, if_false, IntMap.keys, List.map_cons, List.mem_cons, ih']
      tauto

theorem IntMap.nodup_keys_set (m : IntMap) (k : String) (v : Int) (h : m.keys.Nodup) :
    (m.set k v).keys.Nodup := by
  induction m with
  | nil => simp [IntMap.set, IntMap.keys]
  | cons kv rest ih =>
    obtain ⟨k₀, v₀⟩ := kv
    have hcons : k₀ ∉ IntMap.keys rest ∧ (IntMap.keys rest).Nodup := by
      simpa [IntMap.keys] using h
    by_cases h0 : k₀ = k
    · subst h0
      simpa [IntMap.set, IntMap.keys] using h
    · have hmem : k₀ ∉ IntMap.keys (IntMap.set rest k v) := by
        rw [IntMap.mem_keys_set]
        rintro (h1 | h1)
        · exact h0 h1
        · exact hcons.1 h1
      have hnd := ih hcons.2
      simp only [IntMap.set, h0, if_false]
      exact List.nodup_cons.2 ⟨hmem, hnd⟩

theorem IntMap.mem_keys_iff_get? (m : IntMap) (k : String) :
    k ∈ m.keys ↔ m.get? k ≠ none := by
  induction m with
  | nil => simp [IntMap.keys, IntMap.get?]
  | cons kv rest ih =>
    obtain ⟨k₀, v₀⟩ := kv
    have ih' : k ∈ List.map Prod.fst rest ↔ IntMap.get? rest k ≠ none := ih
    by_cases h0 : k₀ = k
    · subst h0
      simp [IntMap.keys, IntMap.get?]
    · have h1 : ¬ k = k₀ := fun h => h0 h.symm
      simp only [IntMap.keys, List.map_cons, List.mem_cons, h1, false_or, IntMap.get?, h0,
        if_false, ih']

theorem unreadList_nodup (items : List UnreadMessageItem) (m : IntMap) (h : m.keys.Nodup) :
    (items.foldl (fun (m : IntMap) item => m.set item.UserId item.UnreadMsgNum) m).keys.Nodup := by
  induction items generalizing m with
  | nil => simpa using h
  | cons x xs ih =>
    simp only [List.foldl_cons]
    exact ih _ (IntMap.nodup_keys_set m _ _ h)

theorem unreadList_get? (items : List UnreadMessageItem) (m : IntMap) (k : String) :
    (items.foldl (fun (m : IntMap) item => m.set item.UserId item.UnreadMsgNum) m).get? k =
      match items.reverse.find? (fun item => decide (item.UserId = k)) with
      | some item => some item.UnreadMsgNum
      | none => m.get? k := by
  induction items using List.reverseRecOn with
  | nil => simp
  | append_singleton xs x ih =>
    simp only [List.foldl_append, List.foldl_cons, List.foldl_nil, List.reverse_append,
      List.reverse_cons, List.reverse_nil, List.nil_append, List.singleton_append,
      List.find?_cons, IntMap.get?_set]
    by_cases hx : x.UserId = k
    · simp [hx]
    · simp only [hx, if_false, decide_False]
      exact ih

theorem unreadList_get?_nil (items : List UnreadMessageItem) (k : String) :
    (items.foldl (fun (m : IntMap) item => m.set item.UserId item.UnreadMsgNum) []).get? k =
      (items.reverse.find? (fun item => decide (item.UserId = k))).map (·.UnreadMsgNum) := by
  rw [unreadList_get?]
  cases items.reverse.find? (fun item => decide (item.UserId = k)) <;> simp [IntMap.get?]

theorem unreadList_mem_keys (items : List UnreadMessageItem) (k : String) :
    k ∈ (items.foldl (fun (m : IntMap) item => m.set item.UserId item.UnreadMsgNum) []).keys ↔
      ∃ item ∈ items, item.UserId = k := by
  rw [IntMap.mem_keys_iff_get?, unreadList_get?_nil]
  constructor
  · intro h
    rcases hf : items.reverse.find? (fun item => decide (item.UserId = k)) with _ | item
    · simp [hf] at h
    · have hmem := List.mem_of_find?_eq_some hf
      have hp := List.find?_some hf
      exact ⟨item, by simpa using hmem, by simpa using hp⟩
  · rintro ⟨item, hmem, hk⟩
    rcases hf : items.reverse.find? (fun item => decide (item.UserId = k)) with _ | item'
    · rw [List.find?_eq_none] at hf
      have := hf item (by simpa using hmem)
      simp [hk] at this
    · simpa using ⟨item, hmem, hk⟩

/-- C7: when the transport answers the unread-count request with a response,
`GetUnreadMessageNum` returns no error and a result with `Total` the aggregate
count of the response, `ErrorList` its per-peer error list and `UnreadList` a
non-nil map whose keys are exactly the peer ids of the per-peer unread entries,
each mapped to the count of the last entry for that id; the map is empty when
the response has no per-peer entries, and a peer that is only in the error
list is no key of it. -/
theorem unread_result_mirrors_response (a : api σ) (userId : String)
    (peerUserIds : List (List String)) (w : World σ) (resp : getUnreadMessageNumResp)
    (h : (a.client.Post serviceMessage commandGetUnreadMsgNum
      (.getUnreadMessageNum ⟨userId, peerUserIds.head?⟩) .getUnreadMessageNumResp
      w.client).1 = .ok resp) :
    ∃ m : IntMap,
      (GetUnreadMessageNum a userId peerUserIds w).1 =
        ⟨some { Total := resp.AllUnreadMsgNum, UnreadList := some m,
                ErrorList := resp.PeerErrors }, none⟩ ∧
      m.keys.Nodup ∧
      (∀ k, k ∈ m.keys ↔ ∃ item ∈ resp.PeerUnreadMsgNums, item.UserId = k) ∧
      (∀ k, m.get? k =
        (resp.PeerUnreadMsgNums.reverse.find? (fun item => decide (item.UserId = k))).map
          (·.UnreadMsgNum)) ∧
      (resp.PeerUnreadMsgNums = [] → m = []) ∧
      (∀ err ∈ resp.PeerErrors,
        (∀ item ∈ resp.PeerUnreadMsgNums, item.UserId ≠ err.UserId) →
          err.UserId ∉ m.keys ∧ m.get? err.UserId = none) := by
  have hreq : (if peerUserIds.length > 0 then peerUserIds.head? else none)
      = peerUserIds.head? := by
    cases peerUserIds <;> simp
  refine ⟨resp.PeerUnreadMsgNums.foldl (fun (m : IntMap) item => m.set item.UserId item.UnreadMsgNum) [],
    ?_, ?_, ?_, ?_, ?_, ?_⟩
  · rcases hp : a.client.Post serviceMessage commandGetUnreadMsgNum
      (.getUnreadMessageNum ⟨userId, peerUserIds.head?⟩) .getUnreadMessageNumResp
      w.client with ⟨r, s⟩
    rw [hp] at h
    cases h
    cases hl : resp.PeerUnreadMsgNums <;>
      simp [GetUnreadMessageNum, api.clientPost, hreq, hp, hl]
  · exact unreadList_nodup _ _ (by simp [IntMap.keys])
  · exact fun k => unreadList_mem_keys _ k
  · exact fun k => unreadList_get?_nil _ k
  · intro hnil
    simp [hnil]
  · intro err _ hno
    have hk : err.UserId ∉
        (resp.PeerUnreadMsgNums.foldl
          (fun (m : IntMap) item => m.set item.UserId item.UnreadMsgNum) []).keys := by
      rw [unreadList_mem_keys]
      rintro ⟨item, hmem, hid⟩
      exact hno item hmem hid
    refine ⟨hk, ?_⟩
    by_contra hne
    exact hk ((IntMap.mem_keys_iff_get? _ _).2 hne)

/-! ## The pagination loop, one iteration at a time -/

theorem FetchMessages_ok (a : api σ) (req : FetchMessagesArg) (w : World σ)
    (resp : fetchMessagesResp) (s : σ) (h : a.client.fetch req w.client = (.ok resp, s)) :
    FetchMessages a req w =
      (⟨some (pageOf resp), none⟩,
        { w with client := s, posts := w.posts ++ [fetchRecord req (.ok resp)] }) := by
  unfold Client.fetch at h
  by_cases hc : resp.Complete = 1 <;>
    simp [FetchMessages, api.clientPost, h, pageOf, fetchRecord, hc]

theorem FetchMessages_error (a : api σ) (req : FetchMessagesArg) (w : World σ)
    (e : Error) (s : σ) (h : a.client.fetch req w.client = (.error e, s)) :
    FetchMessages a req w =
      (⟨none, some e⟩,
        { w with client := s, posts := w.posts ++ [fetchRecord req (.error e)] }) := by
  unfold Client.fetch at h
  simp [FetchMessages, api.clientPost, h, fetchRecord]

theorem loop_done (a : api σ) (fuel : Nat) (ret : Option FetchMessagesRet)
    (req : FetchMessagesArg) (w : World σ) (h : loopCond ret = false) :
    PullMessagesLoop a fuel ret req w = (.returned none, w) := by
  cases fuel <;> simp [PullMessagesLoop, h]

theorem loop_error (a : api σ) (fuel : Nat) (ret : Option FetchMessagesRet)
    (req : FetchMessagesArg) (w : World σ) (hc : loopCond ret = true)
    (e : Error) (s : σ) (h : a.client.fetch req w.client = (.error e, s)) :
    PullMessagesLoop a (fuel + 1) ret req w =
      (.returned (some e),
        { w with client := s, posts := w.posts ++ [fetchRecord req (.error e)] }) := by
  simp [PullMessagesLoop, hc, FetchMessages_error a req w e s h]

theorem loop_final (a : api σ) (fuel : Nat) (ret : Option FetchMessagesRet)
    (req : FetchMessagesArg) (w : World σ) (hc : loopCond ret = true)
    (resp : fetchMessagesResp) (s : σ) (h : a.client.fetch req w.client = (.ok resp, s))
    (hfin : resp.Complete = 1) :
    PullMessagesLoop a (fuel + 1) ret req w =
      (.returned none,
        { w with client := s, posts := w.posts ++ [fetchRecord req (.ok resp)],
                 spawned := w.spawned ++ [pageOf resp] }) := by
  have hover : (pageOf resp).IsOver = true := by simp [pageOf, hfin]
  simp only [PullMessagesLoop, hc, if_true, FetchMessages_ok a req w resp s h, hover]
  rw [loop_done a fuel _ _ _ (by simp [loopCond, hover])]
  rfl

theorem loop_more (a : api σ) (fuel : Nat) (ret : Option FetchMessagesRet)
    (req : FetchMessagesArg) (w : World σ) (hc : loopCond ret = true)
    (resp : fetchMessagesResp) (s : σ) (h : a.client.fetch req w.client = (.ok resp, s))
    (hmore : resp.Complete ≠ 1) :
    PullMessagesLoop a (fuel + 1) ret req w =
      PullMessagesLoop a fuel (some (pageOf resp))
        { req with LastMsgKey := resp.LastMsgKey, MaxTime := resp.LastMsgTime }
        { w with client := s, posts := w.posts ++ [fetchRecord req (.ok resp)],
                 spawned := w.spawned ++ [pageOf resp] } := by
  have hover : (pageOf resp).IsOver = false := by simp [pageOf, hmore]
  simp only [PullMessagesLoop, hc, if_true, FetchMessages_ok a req w resp s h, hover]
  rfl

theorem loopCond_pageOf (resp : fetchMessagesResp) (hmore : resp.Complete ≠ 1) :
    loopCond (some (pageOf resp)) = true := by
  simp [loopCond, pageOf, hmore]

/-- A run through `j` pages that are not final: the loop state reached. -/
theorem loop_through_pages (a : api σ) (j : Nat) :
    ∀ (ret : Option FetchMessagesRet) (req : FetchMessagesArg) (w : World σ),
      loopCond ret = true →
      (∀ reqs r, reqs.length < j →
        ∃ resp, (a.client.fetch r (a.client.afterFetches w.client reqs)).1 = .ok resp ∧
          resp.Complete ≠ 1) →
      ∃ ret' req' w' reqs resps,
        loopCond ret' = true ∧
        (∀ fuel, PullMessagesLoop a (j + fuel) ret req w = PullMessagesLoop a fuel ret' req' w') ∧
        reqs.length = j ∧ resps.length = j ∧
        w'.posts = w.posts ++ List.zipWith (fun r p => fetchRecord r (.ok p)) reqs resps ∧
        w'.spawned = w.spawned ++ resps.map pageOf ∧
        w'.client = a.client.afterFetches w.client reqs := by
  induction j with
  | zero =>
    intro ret req w hc _
    exact ⟨ret, req, w, [], [], hc, by simp, rfl, rfl, by simp, by simp, rfl⟩
  | succ j ih =>
    intro ret req w hc hyp
    obtain ⟨resp, hresp, hmore⟩ := hyp [] req (by simp)
    rcases hf : a.client.fetch req w.client with ⟨r, s⟩
    have hr : r = .ok resp := by
      have := hresp
      simp only [Client.afterFetches, hf] at this
      exact this
    subst hr
    obtain ⟨ret', req', w', reqs, resps, hc', hrun, hlen, hlen', hposts, hspawned, hclient⟩ :=
      ih (some (pageOf resp))
        { req with LastMsgKey := resp.LastMsgKey, MaxTime := resp.LastMsgTime }
        { w with client := s, posts := w.posts ++ [fetchRecord req (.ok resp)],
                 spawned := w.spawned ++ [pageOf resp] }
        (loopCond_pageOf resp hmore)
        (by
          intro reqs r hlt
          have := hyp (req :: reqs) r (by simpa using hlt)
          simpa only [Client.afterFetches, hf] using this)
    refine ⟨ret', req', w', req :: reqs, resp :: resps, hc', ?_, by simp [hlen],
      by simp [hlen'], ?_, ?_, ?_⟩
    · intro fuel
      rw [Nat.add_right_comm, loop_more a (j + fuel) ret req w hc resp s hf hmore]
      exact hrun fuel
    · simp [hposts]
    · simp [hspawned]
    · simp only [hclient, Client.afterFetches, hf]

/-! ## Runs of `PullMessages` -/

/-- C1: when the first `n - 1` answers of the transport to the history fetch
are successes with a completion indicator other than 1 and the `n`-th is a
success with completion indicator 1, `PullMessages` (with any fuel of at least
`n`) returns a nil error, having made exactly `n` `Post` calls, all history
fetches, and dispatched the callback exactly `n` times, on the pages of the
`n` responses in the order they were received. -/
theorem pull_returns_after_final_page (a : api σ) (arg : PullMessagesArg) (w : World σ)
    (n : Nat) (hn : 1 ≤ n)
    (hfirst : ∀ reqs r, reqs.length + 1 < n →
      ∃ resp, (a.client.fetch r (a.client.afterFetches w.client reqs)).1 = .ok resp ∧
        resp.Complete ≠ 1)
    (hlast : ∀ reqs r, reqs.length + 1 = n →
      ∃ resp, (a.client.fetch r (a.client.afterFetches w.client reqs)).1 = .ok resp ∧
        resp.Complete = 1) :
    ∃ w' reqs resps,
      (∀ fuel, n ≤ fuel → PullMessages a arg fuel w = (.returned none, w')) ∧
      reqs.length = n ∧ resps.length = n ∧
      w'.posts = w.posts ++ List.zipWith (fun r p => fetchRecord r (.ok p)) reqs resps ∧
      w'.posts.length = w.posts.length + n ∧
      w'.spawned = w.spawned ++ resps.map pageOf ∧
      w'.spawned.length = w.spawned.length + n := by
  obtain ⟨j, rfl⟩ : ∃ j, n = j + 1 := ⟨n - 1, by omega⟩
  obtain ⟨ret', req', w', reqs, resps, hc', hrun, hlen, hlen', hposts, hspawned, hclient⟩ :=
    loop_through_pages a j none (firstRequest arg) w rfl
      (fun reqs r hlt => hfirst reqs r (by omega))
  obtain ⟨resp, hresp, hfin⟩ := hlast reqs req' (by omega)
  rw [← hclient] at hresp
  rcases hf : a.client.fetch req' w'.client with ⟨r, s⟩
  rw [hf] at hresp
  simp only at hresp
  subst hresp
  refine ⟨{ w' with client := s, posts := w'.posts ++ [fetchRecord req' (.ok resp)],
                    spawned := w'.spawned ++ [pageOf resp] },
    reqs ++ [req'], resps ++ [resp], ?_, by simp [hlen], by simp [hlen'], ?_, ?_, ?_, ?_⟩
  · intro fuel hfuel
    obtain ⟨f, rfl⟩ : ∃ f, fuel = j + (f + 1) := ⟨fuel - j - 1, by omega⟩
    show PullMessagesLoop a (j + (f + 1)) none (firstRequest arg) w = _
    rw [hrun (f + 1), loop_final a f ret' req' w' hc' resp s hf hfin]
  · simp [hposts, List.zipWith_append, hlen, hlen']
  · simp [hposts, hlen, hlen', Nat.add_assoc]
  · simp [hspawned]
  · simp [hspawned, hlen', Nat.add_assoc]

/-- C3: when the first `k - 1` answers of the transport to the history fetch
are successes with a completion indicator other than 1 and the `k`-th is the
error `e`, `PullMessages` (with any fuel of at least `k`) returns `e`, having
made exactly `k` `Post` calls, the last of which failed, and dispatched the
callback exactly `k - 1` times, on the pages of the first `k - 1` responses in
order. -/
theorem pull_returns_fetch_error (a : api σ) (arg : PullMessagesArg) (w : World σ)
    (k : Nat) (hk : 1 ≤ k) (e : Error)
    (hfirst : ∀ reqs r, reqs.length + 1 < k →
      ∃ resp, (a.client.fetch r (a.client.afterFetches w.client reqs)).1 = .ok resp ∧
        resp.Complete ≠ 1)
    (hlast : ∀ reqs r, reqs.length + 1 = k →
      (a.client.fetch r (a.client.afterFetches w.client reqs)).1 = .error e) :
    ∃ w' reqs resps lastReq,
      (∀ fuel, k ≤ fuel → PullMessages a arg fuel w = (.returned (some e), w')) ∧
      reqs.length = k - 1 ∧ resps.length = k - 1 ∧
      w'.posts = w.posts ++ List.zipWith (fun r p => fetchRecord r (.ok p)) reqs resps
        ++ [fetchRecord lastReq (.error e)] ∧
      w'.posts.length = w.posts.length + k ∧
      w'.spawned = w.spawned ++ resps.map pageOf ∧
      w'.spawned.length = w.spawned.length + (k - 1) := by
  obtain ⟨j, rfl⟩ : ∃ j, k = j + 1 := ⟨k - 1, by omega⟩
  obtain ⟨ret', req', w', reqs, resps, hc', hrun, hlen, hlen', hposts, hspawned, hclient⟩ :=
    loop_through_pages a j none (firstRequest arg) w rfl
      (fun reqs r hlt => hfirst reqs r (by omega))
  have hresp := hlast reqs req' (by omega)
  rw [← hclient] at hresp
  rcases hf : a.client.fetch req' w'.client with ⟨r, s⟩
  rw [hf] at hresp
  simp only at hresp
  subst hresp
  refine ⟨{ w' with client := s, posts := w'.posts ++ [fetchRecord req' (.error e)] },
    reqs, resps, req', ?_, by simp [hlen], by simp [hlen'], ?_, ?_, ?_, ?_⟩
  · intro fuel hfuel
    obtain ⟨f, rfl⟩ : ∃ f, fuel = j + (f + 1) := ⟨fuel - j - 1, by omega⟩
    show PullMessagesLoop a (j + (f + 1)) none (firstRequest arg) w = _
    rw [hrun (f + 1), loop_error a f ret' req' w' hc' e s hf]
  · simp [hposts]
  · simp [hposts, hlen, hlen', Nat.add_assoc]
  · simp [hspawned]
  · simp [hspawned, hlen']

/-- The requests of the loop, for any transport and any number of iterations. -/
theorem loop_requests (a : api σ) (fuel : Nat) :
    ∀ (ret : Option FetchMessagesRet) (req : FetchMessagesArg) (w : World σ),
      ∃ recs : List PostRecord,
        (PullMessagesLoop a fuel ret req w).2.posts = w.posts ++ recs ∧
        (∀ rec ∈ recs.head?, rec.req = .fetchMessages req) ∧
        recs.Chain' Continues ∧
        (loopCond ret = false → recs = []) ∧
        (∀ rec ∈ recs, rec.service = serviceMessage ∧ rec.command = commandGetRoamMsg ∧
          ∃ r, rec.req = .fetchMessages r ∧ r.FromUserId = req.FromUserId ∧
            r.ToUserId = req.ToUserId ∧ r.MinTime = req.MinTime ∧
            r.MaxLimited = req.MaxLimited) := by
  induction fuel with
  | zero =>
    intro ret req w
    refine ⟨[], ?_, by simp, by simp, by simp, by simp⟩
    cases hc : loopCond ret <;> simp [PullMessagesLoop, hc]
  | succ fuel ih =>
    intro ret req w
    cases hc : loopCond ret
    · exact ⟨[], by simp [loop_done a _ ret req w hc], by simp, by simp, by simp, by simp⟩
    · rcases hf : a.client.fetch req w.client with ⟨r, s⟩
      cases r with
      | error e =>
        refine ⟨[fetchRecord req (.error e)], by simp [loop_error a fuel ret req w hc e s hf],
          by simp [fetchRecord], by simp, by simp, ?_⟩
        intro rec hrec
        rw [List.mem_singleton] at hrec
        subst hrec
        exact ⟨rfl, rfl, req, rfl, rfl, rfl, rfl, rfl⟩
      | ok resp =>
        by_cases hfin : resp.Complete = 1
        · refine ⟨[fetchRecord req (.ok resp)],
            by simp [loop_final a fuel ret req w hc resp s hf hfin],
            by simp [fetchRecord], by simp, by simp, ?_⟩
          intro rec hrec
          rw [List.mem_singleton] at hrec
          subst hrec
          exact ⟨rfl, rfl, req, rfl, rfl, rfl, rfl, rfl⟩
        · obtain ⟨recs, hposts, hhead, hchain, _, hall⟩ :=
            ih (some (pageOf resp))
              { req with LastMsgKey := resp.LastMsgKey, MaxTime := resp.LastMsgTime }
              { w with client := s, posts := w.posts ++ [fetchRecord req (.ok resp)],
                       spawned := w.spawned ++ [pageOf resp] }
          refine ⟨fetchRecord req (.ok resp) :: recs, ?_, by simp [fetchRecord], ?_,
            by simp, ?_⟩
          · rw [loop_more a fuel ret req w hc resp s hf hfin, hposts]
            simp
          · refine List.Chain'.cons' hchain ?_
            intro rec hrec
            exact ⟨req, resp, rfl, rfl, hhead rec hrec⟩
          · intro rec hrec
            rcases List.mem_cons.1 hrec with h | h
            · subst h
              exact ⟨rfl, rfl, req, rfl, rfl, rfl, rfl, rfl⟩
            · exact hall rec h

/-- No run of the loop stops on a nil page: `FetchMessages` returns a page
whenever it returns no error. -/
theorem loop_never_panics (a : api σ) (fuel : Nat) :
    ∀ (ret : Option FetchMessagesRet) (req : FetchMessagesArg) (w : World σ),
      (PullMessagesLoop a fuel ret req w).1 ≠ .panicked := by
  induction fuel with
  | zero =>
    intro ret req w
    cases hc : loopCond ret <;> simp [PullMessagesLoop, hc]
  | succ fuel ih =>
    intro ret req w
    cases hc : loopCond ret
    · simp [loop_done a _ ret req w hc]
    · rcases hf : a.client.fetch req w.client with ⟨r, s⟩
      cases r with
      | error e => simp [loop_error a fuel ret req w hc e s hf]
      | ok resp =>
        by_cases hfin : resp.Complete = 1
        · simp [loop_final a fuel ret req w hc resp s hf hfin]
        · rw [loop_more a fuel ret req w hc resp s hf hfin]
          exact ih _ _ _

/-- C2: in every run of `PullMessages`, over any transport and after any
number of loop iterations, the `Post` calls made are history fetches; the first
carries the caller's `FromUserId`, `ToUserId`, `MaxLimited`, `MinTime` and
`MaxTime` with an empty `LastMsgKey`; every later one follows a call that was
answered with a page and repeats its request with `MaxTime` set to the page's
`LastMsgTime` and `LastMsgKey` to the page's `LastMsgKey`; and `FromUserId`,
`ToUserId`, `MinTime` and `MaxLimited` are the caller's in every request. -/
theorem pull_request_sequence (a : api σ) (arg : PullMessagesArg) (fuel : Nat) (w : World σ) :
    ∃ recs : List PostRecord,
      (PullMessages a arg fuel w).2.posts = w.posts ++ recs ∧
      (∀ rec ∈ recs.head?, rec.req = .fetchMessages
        { FromUserId := arg.FromUserId, ToUserId := arg.ToUserId,
          MaxLimited := arg.MaxLimited, MinTime := arg.MinTime, MaxTime := arg.MaxTime,
          LastMsgKey := "" }) ∧
      recs.Chain' (fun r r' =>
        ∃ req resp, r.req = .fetchMessages req ∧ r.result = .ok (.fetchMessages resp) ∧
          r'.req = .fetchMessages
            { req with MaxTime := resp.LastMsgTime, LastMsgKey := resp.LastMsgKey }) ∧
      (∀ rec ∈ recs, rec.service = serviceMessage ∧ rec.command = commandGetRoamMsg ∧
        ∃ r, rec.req = .fetchMessages r ∧ r.FromUserId = arg.FromUserId ∧
          r.ToUserId = arg.ToUserId ∧ r.MinTime = arg.MinTime ∧
          r.MaxLimited = arg.MaxLimited) := by
  obtain ⟨recs, hposts, hhead, hchain, _, hall⟩ :=
    loop_requests a fuel none (firstRequest arg) w
  exact ⟨recs, hposts, hhead, hchain, hall⟩

/-! ## Termination -/

/-- A loop whose upper time bound is below `N` returns within `N` iterations
when, in each of its runs, every page that is not final reports a non-negative
time below the bound of its request. -/
theorem loop_terminates (a : api σ) (N : Nat) :
    ∀ (ret : Option FetchMessagesRet) (req : FetchMessagesArg) (w : World σ),
      req.MaxTime.toNat < N →
      (∀ fuel recs r resp,
        (PullMessagesLoop a fuel ret req w).2.posts = w.posts ++ recs →
        fetchRecord r (.ok resp) ∈ recs → resp.Complete ≠ 1 →
        0 ≤ resp.LastMsgTime ∧ resp.LastMsgTime < r.MaxTime) →
      ∃ err w' reqs results,
        (∀ fuel, N ≤ fuel → PullMessagesLoop a fuel ret req w = (.returned err, w')) ∧
        w'.posts = w.posts ++ List.zipWith fetchRecord reqs results ∧
        reqs.length = results.length ∧
        reqs.length ≤ N ∧
        (reqs.map (·.MaxTime)).Chain' (· > ·) ∧
        (∀ r ∈ reqs.head?, r = req) := by
  induction N with
  | zero => intro ret req w h; omega
  | succ N ih =>
    intro ret req w hN hyp
    cases hc : loopCond ret
    · exact ⟨none, w, [], [], fun fuel _ => loop_done a fuel ret req w hc, by simp, rfl,
        by simp, by simp, by simp⟩
    · rcases hf : a.client.fetch req w.client with ⟨r, s⟩
      cases r with
      | error e =>
        refine ⟨some e,
          { w with client := s, posts := w.posts ++ [fetchRecord req (.error e)] },
          [req], [.error e], ?_, rfl, rfl, by simp, by simp, by simp⟩
        intro fuel hfuel
        obtain ⟨f, rfl⟩ : ∃ f, fuel = f + 1 := ⟨fuel - 1, by omega⟩
        exact loop_error a f ret req w hc e s hf
      | ok resp =>
        by_cases hfin : resp.Complete = 1
        · refine ⟨none,
            { w with client := s, posts := w.posts ++ [fetchRecord req (.ok resp)],
                     spawned := w.spawned ++ [pageOf resp] },
            [req], [.ok resp], ?_, rfl, rfl, by simp, by simp, by simp⟩
          intro fuel hfuel
          obtain ⟨f, rfl⟩ : ∃ f, fuel = f + 1 := ⟨fuel - 1, by omega⟩
          exact loop_final a f ret req w hc resp s hf hfin
        · have hstep := hyp 1 [fetchRecord req (.ok resp)] req resp
            (by
              rw [loop_more a 0 ret req w hc resp s hf hfin]
              simp [PullMessagesLoop, loopCond_pageOf resp hfin])
            (by simp) hfin
          obtain ⟨err, w', reqs, results, hrun, hposts, hlen, hle, hchain, hhead⟩ :=
            ih (some (pageOf resp))
              { req with LastMsgKey := resp.LastMsgKey, MaxTime := resp.LastMsgTime }
              { w with client := s, posts := w.posts ++ [fetchRecord req (.ok resp)],
                       spawned := w.spawned ++ [pageOf resp] }
              (by
                show resp.LastMsgTime.toNat < N
                omega)
              (by
                intro fuel recs r resp' h1 h2 h3
                refine hyp (fuel + 1) (fetchRecord req (.ok resp) :: recs) r resp' ?_
                  (List.mem_cons_of_mem _ h2) h3
                rw [loop_more a fuel ret req w hc resp s hf hfin, h1]
                simp)
          refine ⟨err, w', req :: reqs, .ok resp :: results, ?_, ?_, by simp [hlen],
            by simp; omega, ?_, by simp⟩
          · intro fuel hfuel
            obtain ⟨f, rfl⟩ : ∃ f, fuel = f + 1 := ⟨fuel - 1, by omega⟩
            rw [loop_more a f ret req w hc resp s hf hfin]
            exact hrun f (by omega)
          · simp [hposts]
          · rw [List.map_cons]
            refine List.Chain'.cons' hchain ?_
            intro t ht
            cases reqs with
            | nil => simp at ht
            | cons r' rest =>
              have hr' : r' = _ := hhead r' (by simp)
              simp only [List.map_cons, List.head?_cons, Option.mem_def,
                Option.some.injEq] at ht
              subst ht
              rw [hr']
              exact hstep.2

/-- C9: `PullMessages` terminates over every transport under which each
successful page that is not final reports a `LastMsgTime` that is non-negative
and strictly below the `MaxTime` of the request that produced it (in every run,
however long): any fuel of at least `MaxTime + 1` (1 for a negative `MaxTime`)
gives one and the same returned result, at most that many page fetches are
made, and the `MaxTime` of the requests strictly decreases from each request to
the next. -/
theorem pull_terminates_on_decreasing_times (a : api σ) (arg : PullMessagesArg)
    (w : World σ)
    (hdec : ∀ fuel recs req resp,
      (PullMessages a arg fuel w).2.posts = w.posts ++ recs →
      fetchRecord req (.ok resp) ∈ recs → resp.Complete ≠ 1 →
      0 ≤ resp.LastMsgTime ∧ resp.LastMsgTime < req.MaxTime) :
    ∃ err w' reqs results,
      (∀ fuel, arg.MaxTime.toNat + 1 ≤ fuel →
        PullMessages a arg fuel w = (.returned err, w')) ∧
      w'.posts = w.posts ++ List.zipWith fetchRecord reqs results ∧
      reqs.length = results.length ∧
      reqs.length ≤ arg.MaxTime.toNat + 1 ∧
      (reqs.map (·.MaxTime)).Chain' (· > ·) := by
  obtain ⟨err, w', reqs, results, hrun, hposts, hlen, hle, hchain, _⟩ :=
    loop_terminates a (arg.MaxTime.toNat + 1) none (firstRequest arg) w
      (by simp [firstRequest]) hdec
  exact ⟨err, w', reqs, results, hrun, hposts, hlen, hle, hchain⟩

/-! ## No guard against a cursor that does not advance -/

/-- Over a transport that answers every history fetch with a page that is not
final, the loop is still running after any number of iterations. -/
theorem loop_runs_on (a : api σ) (fuel : Nat) (ret : Option FetchMessagesRet)
    (req : FetchMessagesArg) (w : World σ) (hc : loopCond ret = true)
    (hyp : ∀ reqs r, ∃ resp,
      (a.client.fetch r (a.client.afterFetches w.client reqs)).1 = .ok resp ∧
        resp.Complete ≠ 1) :
    ∃ w' reqs resps,
      PullMessagesLoop a fuel ret req w = (.running, w') ∧
      reqs.length = fuel ∧ resps.length = fuel ∧
      w'.posts = w.posts ++ List.zipWith (fun r p => fetchRecord r (.ok p)) reqs resps ∧
      w'.spawned = w.spawned ++ resps.map pageOf := by
  obtain ⟨ret', req', w', reqs, resps, hc', hrun, hlen, hlen', hposts, hspawned, _⟩ :=
    loop_through_pages a fuel ret req w hc (fun reqs r _ => hyp reqs r)
  refine ⟨w', reqs, resps, ?_, hlen, hlen', hposts, hspawned⟩
  have := hrun 0
  rw [Nat.add_zero] at this
  rw [this]
  simp [PullMessagesLoop, hc']

/-- C10, as amended: `PullMessages` has no guard against a cursor that does
not advance. Over a transport that answers every history fetch with a success
whose completion indicator is not 1, whatever `LastMsgTime` the pages report,
it never returns: after any number `fuel` of iterations it is still in its
loop, has made exactly `fuel` page fetches, all answered with a page, and has
dispatched the callback on each of these pages. -/
theorem pull_never_stops_without_final_page (a : api σ) (arg : PullMessagesArg)
    (w : World σ)
    (hyp : ∀ reqs r, ∃ resp,
      (a.client.fetch r (a.client.afterFetches w.client reqs)).1 = .ok resp ∧
        resp.Complete ≠ 1)
    (fuel : Nat) :
    ∃ w' reqs resps,
      PullMessages a arg fuel w = (.running, w') ∧
      reqs.length = fuel ∧ resps.length = fuel ∧
      w'.posts = w.posts ++ List.zipWith (fun r p => fetchRecord r (.ok p)) reqs resps ∧
      w'.spawned = w.spawned ++ resps.map pageOf :=
  loop_runs_on a fuel none (firstRequest arg) w rfl hyp

/-! ## Worked examples -/

theorem loop_fuel_mono (a : api σ) (fuel k : Nat) :
    ∀ (ret : Option FetchMessagesRet) (req : FetchMessagesArg) (w : World σ)
      (st : Status) (w' : World σ),
      PullMessagesLoop a fuel ret req w = (st, w') → st ≠ .running →
      PullMessagesLoop a (fuel + k) ret req w = (st, w') := by
  induction fuel with
  | zero =>
    intro ret req w st w' h hst
    cases hc : loopCond ret
    · rw [loop_done a _ ret req w hc] at h ⊢
      exact h
    · simp [PullMessagesLoop, hc] at h
      exact absurd h.1.symm hst
  | succ fuel ih =>
    intro ret req w st w' h hst
    cases hc : loopCond ret
    · rw [loop_done a _ ret req w hc] at h ⊢
      exact h
    · rcases hf : a.client.fetch req w.client with ⟨r, s⟩
      rw [Nat.add_right_comm]
      cases r with
      | error e =>
        rw [loop_error a _ ret req w hc e s hf] at h ⊢
        exact h
      | ok resp =>
        by_cases hfin : resp.Complete = 1
        · rw [loop_final a _ ret req w hc resp s hf hfin] at h ⊢
          exact h
        · rw [loop_more a _ ret req w hc resp s hf hfin] at h ⊢
          exact ih _ _ _ st w' h hst

theorem stub_fetch (script : Nat → FetchMessagesArg → Reply fetchMessagesResp)
    (req : FetchMessagesArg) (s : Nat) :
    (stubClient script).fetch req s = (script s req, s + 1) :=
  rfl

theorem stub_afterFetches (script : Nat → FetchMessagesArg → Reply fetchMessagesResp)
    (s : Nat) (reqs : List FetchMessagesArg) :
    (stubClient script).afterFetches s reqs = s + reqs.length := by
  induction reqs generalizing s with
  | nil => rfl
  | cons r rs ih =>
    simp only [Client.afterFetches, stub_fetch, ih, List.length_cons]
    omega

theorem threePages_first (reqs : List FetchMessagesArg) (r : FetchMessagesArg)
    (h : reqs.length + 1 < 3) :
    ∃ resp, ((stubClient threePages).fetch r
        ((stubClient threePages).afterFetches emptyWorld.client reqs)).1 = .ok resp ∧
      resp.Complete ≠ 1 := by
  rw [stub_afterFetches, stub_fetch]
  have hl : reqs.length = 0 ∨ reqs.length = 1 := by omega
  rcases hl with hl | hl <;> simp [emptyWorld, hl, threePages, morePage]

theorem threePages_last (reqs : List FetchMessagesArg) (r : FetchMessagesArg)
    (h : reqs.length + 1 = 3) :
    ∃ resp, ((stubClient threePages).fetch r
        ((stubClient threePages).afterFetches emptyWorld.client reqs)).1 = .ok resp ∧
      resp.Complete = 1 := by
  rw [stub_afterFetches, stub_fetch]
  have hl : reqs.length = 2 := by omega
  simp [emptyWorld, hl, threePages, finalPage]

theorem pageThenError_first (reqs : List FetchMessagesArg) (r : FetchMessagesArg)
    (h : reqs.length + 1 < 2) :
    ∃ resp, ((stubClient pageThenError).fetch r
        ((stubClient pageThenError).afterFetches emptyWorld.client reqs)).1 = .ok resp ∧
      resp.Complete ≠ 1 := by
  rw [stub_afterFetches, stub_fetch]
  have hl : reqs.length = 0 := by omega
  simp [emptyWorld, hl, pageThenError, morePage]

theorem pageThenError_last (reqs : List FetchMessagesArg) (r : FetchMessagesArg)
    (h : reqs.length + 1 = 2) :
    ((stubClient pageThenError).fetch r
        ((stubClient pageThenError).afterFetches emptyWorld.client reqs)).1
      = .error ⟨"connection reset"⟩ := by
  rw [stub_afterFetches, stub_fetch]
  have hl : reqs.length = 1 := by omega
  simp [emptyWorld, hl, pageThenError]

theorem endlessPages_more (reqs : List FetchMessagesArg) (r : FetchMessagesArg) :
    ∃ resp, ((stubClient endlessPages).fetch r
        ((stubClient endlessPages).afterFetches emptyWorld.client reqs)).1 = .ok resp ∧
      resp.Complete ≠ 1 := by
  rw [stub_afterFetches, stub_fetch]
  simp [endlessPages, morePage]

theorem stuckPages_more (reqs : List FetchMessagesArg) (r : FetchMessagesArg) :
    ∃ resp, ((stubClient stuckPages).fetch r
        ((stubClient stuckPages).afterFetches emptyWorld.client reqs)).1 = .ok resp ∧
      resp.Complete ≠ 1 := by
  rw [stub_afterFetches, stub_fetch]
  simp [stuckPages, morePage]

/-- The run of `PullMessages` over the three-page stub, written out. -/
theorem threePages_run :
    PullMessages ⟨stubClient threePages⟩ sampleArg 3 emptyWorld =
      (.returned none,
        { client := 3
          posts :=
            [fetchRecord ⟨"alice", "bob", 100, 0, 100, ""⟩ (.ok (morePage 50 "k1")),
             fetchRecord ⟨"alice", "bob", 100, 0, 50, "k1"⟩ (.ok (morePage 30 "k2")),
             fetchRecord ⟨"alice", "bob", 100, 0, 30, "k2"⟩ (.ok (finalPage 10 "k3"))]
          spawned := [pageOf (morePage 50 "k1"), pageOf (morePage 30 "k2"),
            pageOf (finalPage 10 "k3")]
          draws := 0
          ranges := 0 }) := by
  rfl

/-- C1 at the three-page stub (`n = 3`): the hypotheses hold there, and so does
the conclusion. -/
theorem pull_returns_after_final_page_witness :
    (∀ reqs r, reqs.length + 1 < 3 →
      ∃ resp, ((stubClient threePages).fetch r
          ((stubClient threePages).afterFetches emptyWorld.client reqs)).1 = .ok resp ∧
        resp.Complete ≠ 1) ∧
    (∀ reqs r, reqs.length + 1 = 3 →
      ∃ resp, ((stubClient threePages).fetch r
          ((stubClient threePages).afterFetches emptyWorld.client reqs)).1 = .ok resp ∧
        resp.Complete = 1) ∧
    ∃ w' reqs resps,
      (∀ fuel, 3 ≤ fuel →
        PullMessages ⟨stubClient threePages⟩ sampleArg fuel emptyWorld = (.returned none, w')) ∧
      reqs.length = 3 ∧ resps.length = 3 ∧
      w'.posts = emptyWorld.posts ++
        List.zipWith (fun r p => fetchRecord r (.ok p)) reqs resps ∧
      w'.posts.length = emptyWorld.posts.length + 3 ∧
      w'.spawned = emptyWorld.spawned ++ resps.map pageOf ∧
      w'.spawned.length = emptyWorld.spawned.length + 3 :=
  ⟨threePages_first, threePages_last,
    pull_returns_after_final_page ⟨stubClient threePages⟩ sampleArg emptyWorld 3 (by decide)
      threePages_first threePages_last⟩

/-- C3 at the stub that fails on its second call (`k = 2`). -/
theorem pull_returns_fetch_error_witness :
    (∀ reqs r, reqs.length + 1 < 2 →
      ∃ resp, ((stubClient pageThenError).fetch r
          ((stubClient pageThenError).afterFetches emptyWorld.client reqs)).1 = .ok resp ∧
        resp.Complete ≠ 1) ∧
    (∀ reqs r, reqs.length + 1 = 2 →
      ((stubClient pageThenError).fetch r
          ((stubClient pageThenError).afterFetches emptyWorld.client reqs)).1
        = .error ⟨"connection reset"⟩) ∧
    ∃ w' reqs resps lastReq,
      (∀ fuel, 2 ≤ fuel →
        PullMessages ⟨stubClient pageThenError⟩ sampleArg fuel emptyWorld
          = (.returned (some ⟨"connection reset"⟩), w')) ∧
      reqs.length = 2 - 1 ∧ resps.length = 2 - 1 ∧
      w'.posts = emptyWorld.posts ++
        List.zipWith (fun r p => fetchRecord r (.ok p)) reqs resps
        ++ [fetchRecord lastReq (.error ⟨"connection reset"⟩)] ∧
      w'.posts.length = emptyWorld.posts.length + 2 ∧
      w'.spawned = emptyWorld.spawned ++ resps.map pageOf ∧
      w'.spawned.length = emptyWorld.spawned.length + (2 - 1) :=
  ⟨pageThenError_first, pageThenError_last,
    pull_returns_fetch_error ⟨stubClient pageThenError⟩ sampleArg emptyWorld 2 (by decide)
      ⟨"connection reset"⟩ pageThenError_first pageThenError_last⟩

/-- C4 at a message without recipient. -/
theorem validation_precedes_transport_witness :
    (noRecipientMessage.toUserIds = [] ∨ noRecipientMessage.body = []) ∧
    ∃ e, noRecipientMessage.GetError = some e ∧
      SendMessage reversingRuntime ⟨stubClient threePages⟩ noRecipientMessage emptyWorld
        = some (⟨none, some e⟩, emptyWorld) ∧
      ImportMessage reversingRuntime ⟨stubClient threePages⟩ noRecipientMessage emptyWorld
        = some (some e, emptyWorld) :=
  ⟨Or.inl rfl,
    validation_precedes_transport reversingRuntime ⟨stubClient threePages⟩ noRecipientMessage
      emptyWorld (Or.inl rfl)⟩

/-- C5 at a valid message with the sync flag set. -/
theorem sync_flag_on_the_wire_witness :
    syncedMessage.GetError = none ∧
    (∃ res w' req result,
      SendMessage reversingRuntime ⟨stubClient threePages⟩ syncedMessage emptyWorld
        = some (res, w') ∧
      w'.posts = emptyWorld.posts ++
        [⟨serviceMessage, commandSendMsg, .sendMessage req, result⟩] ∧
      (syncedMessage.isSyncOtherMachine = true → req.SyncOtherMachine = 1) ∧
      (syncedMessage.isSyncOtherMachine = false → req.SyncOtherMachine = 2) ∧
      (req.SyncOtherMachine = 1 ∨ req.SyncOtherMachine = 2)) ∧
    (∃ res w' req result,
      ImportMessage reversingRuntime ⟨stubClient threePages⟩ syncedMessage emptyWorld
        = some (res, w') ∧
      w'.posts = emptyWorld.posts ++
        [⟨serviceMessage, commandImportMsg, .importMessage req, result⟩] ∧
      (syncedMessage.isSyncOtherMachine = true → req.SyncFromOldSystem = 1) ∧
      (syncedMessage.isSyncOtherMachine = false → req.SyncFromOldSystem = 2) ∧
      (req.SyncFromOldSystem = 1 ∨ req.SyncFromOldSystem = 2)) :=
  ⟨rfl,
    sync_flag_on_the_wire reversingRuntime ⟨stubClient threePages⟩ syncedMessage emptyWorld rfl⟩

/-- C6 at a valid message with two send-control tokens and one forbid-callback
token, under a runtime that visits map keys in reverse. -/
theorem control_sets_on_the_wire_witness :
    controlledMessage.GetError = none ∧
    ∃ res w' req result,
      SendMessage reversingRuntime ⟨stubClient threePages⟩ controlledMessage emptyWorld
        = some (res, w') ∧
      w'.posts = emptyWorld.posts ++
        [⟨serviceMessage, commandSendMsg, .sendMessage req, result⟩] ∧
      (controlledMessage.sendControls.keys = [] → req.SendMsgControl = none) ∧
      (controlledMessage.sendControls.keys ≠ [] → ∃ l, req.SendMsgControl = some l ∧
        l.Perm controlledMessage.sendControls.keys ∧
        l.length = controlledMessage.sendControls.len ∧
        (∀ k, k ∈ l ↔ k ∈ controlledMessage.sendControls.keys) ∧
        (∀ k ∈ controlledMessage.sendControls.keys, l.count k = 1)) ∧
      (controlledMessage.forbidCallbacks.keys = [] → req.ForbidCallbackControl = none) ∧
      (controlledMessage.forbidCallbacks.keys ≠ [] → ∃ l,
        req.ForbidCallbackControl = some l ∧
        l.Perm controlledMessage.forbidCallbacks.keys ∧
        l.length = controlledMessage.forbidCallbacks.len ∧
        (∀ k, k ∈ l ↔ k ∈ controlledMessage.forbidCallbacks.keys) ∧
        (∀ k ∈ controlledMessage.forbidCallbacks.keys, l.count k = 1)) :=
  ⟨rfl,
    control_sets_on_the_wire reversingRuntime ⟨stubClient threePages⟩ controlledMessage
      emptyWorld rfl⟩

/-- C7 at a response with a repeated peer and a peer in error. -/
theorem unread_result_mirrors_response_witness :
    ((unreadClient sampleUnread).Post serviceMessage commandGetUnreadMsgNum
      (.getUnreadMessageNum ⟨"alice", [["a", "b"]].head?⟩) .getUnreadMessageNumResp
      emptyWorld.client).1 = .ok sampleUnread ∧
    ∃ m : IntMap,
      (GetUnreadMessageNum ⟨unreadClient sampleUnread⟩ "alice" [["a", "b"]] emptyWorld).1 =
        ⟨some { Total := sampleUnread.AllUnreadMsgNum, UnreadList := some m,
                ErrorList := sampleUnread.PeerErrors }, none⟩ ∧
      m.keys.Nodup ∧
      (∀ k, k ∈ m.keys ↔ ∃ item ∈ sampleUnread.PeerUnreadMsgNums, item.UserId = k) ∧
      (∀ k, m.get? k =
        (sampleUnread.PeerUnreadMsgNums.reverse.find?
          (fun item => decide (item.UserId = k))).map (·.UnreadMsgNum)) ∧
      (sampleUnread.PeerUnreadMsgNums = [] → m = []) ∧
      (∀ err ∈ sampleUnread.PeerErrors,
        (∀ item ∈ sampleUnread.PeerUnreadMsgNums, item.UserId ≠ err.UserId) →
          err.UserId ∉ m.keys ∧ m.get? err.UserId = none) :=
  ⟨rfl,
    unread_result_mirrors_response ⟨unreadClient sampleUnread⟩ "alice" [["a", "b"]] emptyWorld
      sampleUnread rfl⟩

/-- In every run over the three-page stub, the pages that are not final report
a time below the upper bound of their request. -/
theorem threePages_decreasing (fuel : Nat) (recs : List PostRecord) (req : FetchMessagesArg)
    (resp : fetchMessagesResp)
    (hposts : (PullMessages ⟨stubClient threePages⟩ sampleArg fuel emptyWorld).2.posts
      = emptyWorld.posts ++ recs)
    (hmem : fetchRecord req (.ok resp) ∈ recs) (hmore : resp.Complete ≠ 1) :
    0 ≤ resp.LastMsgTime ∧ resp.LastMsgTime < req.MaxTime := by
  have hrun : ∀ k, PullMessages ⟨stubClient threePages⟩ sampleArg (3 + k) emptyWorld
      = PullMessages ⟨stubClient threePages⟩ sampleArg 3 emptyWorld := by
    intro k
    exact loop_fuel_mono _ 3 k none _ emptyWorld _ _ threePages_run (by simp)
  have hcases : fuel = 0 ∨ fuel = 1 ∨ fuel = 2 ∨ ∃ k, fuel = 3 + k := by
    rcases Nat.lt_or_ge fuel 3 with h | h
    · omega
    · exact Or.inr (Or.inr (Or.inr ⟨fuel - 3, by omega⟩))
  have hsub : recs ⊆
      [fetchRecord ⟨"alice", "bob", 100, 0, 100, ""⟩ (.ok (morePage 50 "k1")),
       fetchRecord ⟨"alice", "bob", 100, 0, 50, "k1"⟩ (.ok (morePage 30 "k2")),
       fetchRecord ⟨"alice", "bob", 100, 0, 30, "k2"⟩ (.ok (finalPage 10 "k3"))] := by
    rcases hcases with h | h | h | ⟨k, h⟩
    · subst h
      have h0 : (PullMessages ⟨stubClient threePages⟩ sampleArg 0 emptyWorld).2.posts = [] :=
        rfl
      rw [h0, show emptyWorld.posts ++ recs = recs from rfl] at hposts
      rw [← hposts]
      simp
    · subst h
      have h1 : (PullMessages ⟨stubClient threePages⟩ sampleArg 1 emptyWorld).2.posts =
          [fetchRecord ⟨"alice", "bob", 100, 0, 100, ""⟩ (.ok (morePage 50 "k1"))] := rfl
      rw [h1, show emptyWorld.posts ++ recs = recs from rfl] at hposts
      rw [← hposts]
      simp
    · subst h
      have h2 : (PullMessages ⟨stubClient threePages⟩ sampleArg 2 emptyWorld).2.posts =
          [fetchRecord ⟨"alice", "bob", 100, 0, 100, ""⟩ (.ok (morePage 50 "k1")),
           fetchRecord ⟨"alice", "bob", 100, 0, 50, "k1"⟩ (.ok (morePage 30 "k2"))] := rfl
      rw [h2, show emptyWorld.posts ++ recs = recs from rfl] at hposts
      rw [← hposts]
      simp
    · subst h
      rw [hrun k, threePages_run, show emptyWorld.posts ++ recs = recs from rfl] at hposts
      rw [← hposts]
      simp
  have hin := hsub hmem
  simp only [List.mem_cons, List.mem_singleton, List.not_mem_nil, or_false, fetchRecord,
    RespKind.logged, RespKind.wrap, PostRecord.mk.injEq, Request.fetchMessages.injEq,
    Reply.ok.injEq, Response.fetchMessages.injEq, true_and] at hin
  rcases hin with ⟨h1, h2⟩ | ⟨h1, h2⟩ | ⟨h1, h2⟩
  · subst h1 h2
    simp [morePage]
  · subst h1 h2
    simp [morePage]
  · subst h1 h2
    simp [finalPage] at hmore

/-- C9 at the three-page stub, whose last times 50 and 30 lie below the bounds
100 and 50 of their requests. -/
theorem pull_terminates_on_decreasing_times_witness :
    (∀ fuel recs req resp,
      (PullMessages ⟨stubClient threePages⟩ sampleArg fuel emptyWorld).2.posts
        = emptyWorld.posts ++ recs →
      fetchRecord req (.ok resp) ∈ recs → resp.Complete ≠ 1 →
      0 ≤ resp.LastMsgTime ∧ resp.LastMsgTime < req.MaxTime) ∧
    ∃ err w' reqs results,
      (∀ fuel, sampleArg.MaxTime.toNat + 1 ≤ fuel →
        PullMessages ⟨stubClient threePages⟩ sampleArg fuel emptyWorld = (.returned err, w')) ∧
      w'.posts = emptyWorld.posts ++ List.zipWith fetchRecord reqs results ∧
      reqs.length = results.length ∧
      reqs.length ≤ sampleArg.MaxTime.toNat + 1 ∧
      (reqs.map (·.MaxTime)).Chain' (· > ·) :=
  ⟨threePages_decreasing,
    pull_terminates_on_decreasing_times ⟨stubClient threePages⟩ sampleArg emptyWorld
      threePages_decreasing⟩

/-- C10, as amended, at a provider whose pages are never final. -/
theorem pull_never_stops_without_final_page_witness :
    (∀ reqs r, ∃ resp,
      ((stubClient endlessPages).fetch r
        ((stubClient endlessPages).afterFetches emptyWorld.client reqs)).1 = .ok resp ∧
        resp.Complete ≠ 1) ∧
    ∃ w' reqs resps,
      PullMessages ⟨stubClient endlessPages⟩ sampleArg 5 emptyWorld = (.running, w') ∧
      reqs.length = 5 ∧ resps.length = 5 ∧
      w'.posts = emptyWorld.posts ++
        List.zipWith (fun r p => fetchRecord r (.ok p)) reqs resps ∧
      w'.spawned = emptyWorld.spawned ++ resps.map pageOf :=
  ⟨endlessPages_more,
    pull_never_stops_without_final_page ⟨stubClient endlessPages⟩ sampleArg emptyWorld
      endlessPages_more 5⟩

/-- C10 fails on the code: the provider `stuckPages` answers the first request,
of upper time bound 100, with a page that is not final and whose `LastMsgTime`
is 100, not strictly smaller than the bound; `PullMessages` then requests a
second page with the same bound instead of returning an error, and however
many iterations it is given it is still in its loop, has returned no error and
has made one page fetch per iteration. -/
theorem pull_has_no_cursor_guard :
    PullMessages ⟨stubClient stuckPages⟩ sampleArg 2 emptyWorld =
      (.running,
        { client := 2
          posts :=
            [fetchRecord ⟨"alice", "bob", 100, 0, 100, ""⟩ (.ok (morePage 100 "k")),
             fetchRecord ⟨"alice", "bob", 100, 0, 100, "k"⟩ (.ok (morePage 100 "k"))]
          spawned := [pageOf (morePage 100 "k"), pageOf (morePage 100 "k")]
          draws := 0
          ranges := 0 }) ∧
    ∀ fuel,
      (PullMessages ⟨stubClient stuckPages⟩ sampleArg fuel emptyWorld).1 = .running ∧
      (PullMessages ⟨stubClient stuckPages⟩ sampleArg fuel emptyWorld).2.posts.length
        = fuel := by
  refine ⟨rfl, ?_⟩
  intro fuel
  obtain ⟨w', reqs, resps, hrun, hlen, hlen', hposts, _⟩ :=
    loop_runs_on ⟨stubClient stuckPages⟩ fuel none (firstRequest sampleArg) emptyWorld rfl
      stuckPages_more
  have hrun' : PullMessages ⟨stubClient stuckPages⟩ sampleArg fuel emptyWorld
      = (.running, w') := hrun
  rw [hrun']
  refine ⟨rfl, ?_⟩
  simp [hposts, emptyWorld, hlen, hlen']

end TencentIM
